import Mathlib

/-!
Verification of the publish pipeline of the `capuzzella` website builder.

The JavaScript source is shallowly embedded: strings are `List Char`
(`Str`), file contents are `List Nat` (byte lists), the filesystem is an
association list from relative paths to files, and each route handler of
`src/routes/publish.js` becomes a pure state-transforming function.
External library functions used by the source are embedded as follows:

* `crypto.createHash('md5')` — a full executable MD5 (`md5hex`) over byte
  lists, producing the lowercase 32-character hex digest;
* `String.prototype.replaceAll` — `replaceAll`, leftmost non-overlapping
  replacement (the patterns used by the source are never empty);
* node's `path` module (`resolve`, `dirname`, `basename`, `join`,
  `sep = '/'`) — POSIX-style models over slash-separated paths, valid for
  the normalized relative paths the source feeds them;
* `zlib.brotliCompressSync` — an arbitrary deterministic byte-to-byte
  function, kept as an explicit parameter `compress`.
-/

set_option maxRecDepth 10000

/-- Strings as explicit character lists, the unit of all string reasoning. -/
abbrev Str := List Char

/-- Byte sequences (each entry is a byte value `< 256`). -/
abbrev Bytes := List Nat

/-- Coerce a Lean string literal to the `Str` model. -/
def str (s : String) : Str := s.data

/-- Bytes of a string, one byte per character code (ASCII range in practice). -/
def strBytes (s : Str) : Bytes := s.map Char.toNat

/-- The POSIX path separator used by the source (`path.sep`). -/
def sep : Char := '/'

/-- Model of JS `s.startsWith(pre)` (argument order: pattern first). -/
def startsWith : Str → Str → Bool
  | [], _ => true
  | _ :: _, [] => false
  | p :: ps, c :: cs => if p = c then startsWith ps cs else false

/-- Model of JS `s.endsWith(suf)`. -/
def endsWith (suf s : Str) : Bool :=
  startsWith suf.reverse s.reverse

/-- Model of JS `s.lastIndexOf(c)`: index of the last occurrence, `-1` if none. -/
def lastIndexOf (c : Char) : Str → Int
  | [] => -1
  | x :: xs =>
    let r := lastIndexOf c xs
    if r = -1 then (if x = c then 0 else -1) else r + 1

/-- Model of node `path.dirname` for relative POSIX paths without a
trailing separator: everything before the last separator, `"."` if none. -/
def dirname (p : Str) : Str :=
  let i := lastIndexOf sep p
  if i < 0 then str "." else p.take i.toNat

/-- Model of node `path.basename` for the same class of paths. -/
def basename (p : Str) : Str :=
  let i := lastIndexOf sep p
  if i < 0 then p else p.drop (i.toNat + 1)

/-- Model of node `path.join(dir, base)` for a normalized relative `dir`
(as produced by `dirname`) and a separator-free `base`. -/
def joinPath (dir base : Str) : Str :=
  if dir = str "." then base else dir ++ sep :: base

/- ### MD5 (model of node `crypto.createHash('md5').update(bytes).digest('hex')`) -/

/-- The constant `2 ^ 32`, word modulus of MD5. -/
def w32 : Nat := 4294967296

/-- 32-bit left rotation. -/
def rotl32 (x s : Nat) : Nat :=
  (((x <<< s) % w32) ||| (x >>> (32 - s)))

/-- 32-bit bitwise complement. -/
def not32 (x : Nat) : Nat := x ^^^ 4294967295

/-- The MD5 sine-derived constant table `K`. -/
def md5K : List Nat :=
  [3614090360, 3905402710, 606105819, 3250441966, 4118548399, 1200080426,
   2821735955, 4249261313, 1770035416, 2336552879, 4294925233, 2304563134,
   1804603682, 4254626195, 2792965006, 1236535329, 4129170786, 3225465664,
   643717713, 3921069994, 3593408605, 38016083, 3634488961, 3889429448,
   568446438, 3275163606, 4107603335, 1163531501, 2850285829, 4243563512,
   1735328473, 2368359562, 4294588738, 2272392833, 1839030562, 4259657740,
   2763975236, 1272893353, 4139469664, 3200236656, 681279174, 3936430074,
   3572445317, 76029189, 3654602809, 3873151461, 530742520, 3299628645,
   4096336452, 1126891415, 2878612391, 4237533241, 1700485571, 2399980690,
   4293915773, 2240044497, 1873313359, 4264355552, 2734768916, 1309151649,
   4149444226, 3174756917, 718787259, 3951481745]

/-- The MD5 per-round shift table `s`. -/
def md5S : List Nat :=
  [7, 12, 17, 22, 7, 12, 17, 22, 7, 12, 17, 22, 7, 12, 17, 22,
   5, 9, 14, 20, 5, 9, 14, 20, 5, 9, 14, 20, 5, 9, 14, 20,
   4, 11, 16, 23, 4, 11, 16, 23, 4, 11, 16, 23, 4, 11, 16, 23,
   6, 10, 15, 21, 6, 10, 15, 21, 6, 10, 15, 21, 6, 10, 15, 21]

/-- Round mixing function and message index of MD5 round `i`. -/
def md5F (i b c d : Nat) : Nat × Nat :=
  if i < 16 then ((b &&& c) ||| (not32 b &&& d), i)
  else if i < 32 then ((d &&& b) ||| (not32 d &&& c), (5 * i + 1) % 16)
  else if i < 48 then (b ^^^ c ^^^ d, (3 * i + 5) % 16)
  else (c ^^^ (b ||| not32 d), (7 * i) % 16)

/-- One MD5 round over the state `(a, b, c, d)`. -/
def md5Round (M : List Nat) (st : Nat × Nat × Nat × Nat) (i : Nat) :
    Nat × Nat × Nat × Nat :=
  let a := st.1
  let b := st.2.1
  let c := st.2.2.1
  let d := st.2.2.2
  let fg := md5F i b c d
  let f2 := (fg.1 + a + md5K.getD i 0 + M.getD fg.2 0) % w32
  (d, (b + rotl32 f2 (md5S.getD i 0)) % w32, b, c)

/-- Process one 16-word MD5 block. -/
def md5Block (st : Nat × Nat × Nat × Nat) (M : List Nat) :
    Nat × Nat × Nat × Nat :=
  let r := (List.range 64).foldl (md5Round M) st
  ((st.1 + r.1) % w32, (st.2.1 + r.2.1) % w32,
   (st.2.2.1 + r.2.2.1) % w32, (st.2.2.2 + r.2.2.2) % w32)

/-- Group bytes into 32-bit little-endian words. -/
def toWordsLE : List Nat → List Nat
  | b0 :: b1 :: b2 :: b3 :: rest =>
    (b0 + 256 * b1 + 65536 * b2 + 16777216 * b3) :: toWordsLE rest
  | _ => []

/-- Fuel-driven block splitter (structural recursion so the kernel can
evaluate it; the fuel is always set to the list length). -/
def chunks64Go : Nat → List Nat → List (List Nat)
  | _, [] => []
  | 0, _ :: _ => []
  | fuel + 1, x :: xs => (x :: xs).take 64 :: chunks64Go fuel ((x :: xs).drop 64)

/-- Split a padded message into 64-byte blocks. -/
def chunks64 (l : List Nat) : List (List Nat) := chunks64Go l.length l

/-- Little-endian byte expansion of a value, `n` bytes. -/
def leBytes (n v : Nat) : List Nat :=
  (List.range n).map (fun i => v / 256 ^ i % 256)

/-- MD5 padding: `0x80`, zeros to 56 mod 64, then the 64-bit bit length. -/
def padMsg (msg : List Nat) : List Nat :=
  let n := msg.length
  let p := (120 - (n + 1) % 64) % 64
  msg ++ [128] ++ List.replicate p 0 ++ leBytes 8 ((8 * n) % (w32 * w32))

/-- The 16-byte MD5 digest of a byte sequence. -/
def md5Digest (msg : Bytes) : List Nat :=
  let st := (chunks64 (padMsg msg)).foldl
    (fun s blk => md5Block s (toWordsLE blk))
    (1732584193, 4023233417, 2562383102, 271733878)
  leBytes 4 st.1 ++ leBytes 4 st.2.1 ++ leBytes 4 st.2.2.1 ++ leBytes 4 st.2.2.2

/-- Lowercase hex digit. -/
def hexDigit (n : Nat) : Char := (str "0123456789abcdef").getD n '0'

/-- Two-digit lowercase hex of a byte. -/
def byteHex (b : Nat) : Str := [hexDigit (b / 16), hexDigit (b % 16)]

/-- The lowercase 32-character hex MD5 digest, as produced by
`crypto.createHash('md5').update(content).digest('hex')`. -/
def md5hex (msg : Bytes) : Str :=
  (md5Digest msg).foldr (fun b acc => byteHex b ++ acc) []

/- ### PathGuard (`src/lib/safe-path.js`) -/

/-- The error kind thrown by `safePath` (`PathTraversalError`). -/
inductive PathError where
  | traversal
deriving DecidableEq

instance {ε α : Type} [DecidableEq ε] [DecidableEq α] : DecidableEq (Except ε α) :=
  fun a b =>
    match a, b with
    | .ok x, .ok y =>
      if h : x = y then .isTrue (by rw [h])
      else .isFalse (by intro hc; cases hc; exact h rfl)
    | .error x, .error y =>
      if h : x = y then .isTrue (by rw [h])
      else .isFalse (by intro hc; cases hc; exact h rfl)
    | .ok _, .error _ => .isFalse (by intro hc; cases hc)
    | .error _, .ok _ => .isFalse (by intro hc; cases hc)

/-- Split a string at every separator, JS-`split('/')`-style: `n`
separators yield `n + 1` (possibly empty) fields. -/
def splitSlash : Str → List Str
  | [] => [[]]
  | c :: rest =>
    if c = sep then [] :: splitSlash rest
    else
      match splitSlash rest with
      | [] => [[c]]
      | s :: ss => (c :: s) :: ss

/-- Join path components with separators (no leading separator). -/
def joinComps : List Str → Str
  | [] => []
  | [c] => c
  | c :: cs => c ++ sep :: joinComps cs

/-- One step of POSIX path normalization: skip empty and `.` segments,
pop on `..` (clamped at the root), push anything else. -/
def normStep (acc : List Str) (seg : Str) : List Str :=
  if seg = [] ∨ seg = str "." then acc
  else if seg = str ".." then acc.dropLast
  else acc ++ [seg]

/-- Normalize the segments of an absolute path. -/
def normSegs (segs : List Str) : List Str := segs.foldl normStep []

/-- Whether a path is absolute (starts with the separator). -/
def isAbs (p : Str) : Bool :=
  match p with
  | [] => false
  | c :: _ => c = sep

/-- Model of node `path.resolve(base, user)` for an absolute `base`:
join (unless `user` is absolute) and canonically normalize. -/
def resolvePath (base user : Str) : Str :=
  let combined := if isAbs user then user else base ++ sep :: user
  sep :: joinComps (normSegs (splitSlash combined))

/-- Model of `safePath` from `src/lib/safe-path.js`: reject an empty path, resolve
against the base directory, and reject unless the result equals the base
or extends it past a separator. -/
def safePath (baseDir userPath : Str) : Except PathError Str :=
  if userPath = [] then .error .traversal
  else
    let resolved := resolvePath baseDir userPath
    if resolved ≠ baseDir ∧ ¬ startsWith (baseDir ++ [sep]) resolved = true then
      .error .traversal
    else .ok resolved

/-- An absolute root directory assembled from components (the app's roots
such as `<base>/drafts` and `<base>/public` have this shape). -/
def rootStr (cs : List Str) : Str := sep :: joinComps cs

/-- A well-formed path component: non-empty, not `.` or `..`, and free of
separators. -/
def plainComp (x : Str) : Prop :=
  x ≠ [] ∧ x ≠ str "." ∧ x ≠ str ".." ∧ sep ∉ x

instance (x : Str) : Decidable (plainComp x) := by
  unfold plainComp
  infer_instance

/- ### Asset fingerprinting (`src/routes/publish.js`, `fingerprintedName`) -/

/-- The `.` character splitting filename extensions. -/
def dot : Char := '.'

/-- Model of `fingerprintedName(relativePath, hash)`: insert `.<hash>` before the
final extension of the basename; append the hash when the basename has no
extension (or only a leading dot). -/
def fingerprintedName (relativePath hash : Str) : Str :=
  let dir := dirname relativePath
  let base := basename relativePath
  let lastDot := lastIndexOf dot base
  if lastDot ≤ 0 then joinPath dir (base ++ dot :: hash)
  else
    let nameWithoutExt := base.take lastDot.toNat
    let ext := base.drop lastDot.toNat
    let newBase := nameWithoutExt ++ dot :: hash ++ ext
    if dir = [] then newBase else joinPath dir newBase

/- ### `replaceAll` (model of JS `String.prototype.replaceAll`) -/

/-- Fuel-driven leftmost non-overlapping replacement (structural recursion
so the kernel can evaluate it; fuel is always the subject's length). An
empty pattern is treated as matching nowhere — the source only ever passes
patterns beginning with `"assets/"`. -/
def replaceAllGo (pat rep : Str) : Nat → Str → Str
  | _, [] => []
  | 0, s => s
  | fuel + 1, c :: rest =>
    if pat ≠ [] ∧ startsWith pat (c :: rest) = true then
      rep ++ replaceAllGo pat rep fuel ((c :: rest).drop pat.length)
    else c :: replaceAllGo pat rep fuel rest

/-- Model of `s.replaceAll(pat, rep)` for non-empty `pat`. -/
def replaceAll (pat rep s : Str) : Str := replaceAllGo pat rep s.length s

/-- Whether `pat` occurs as a contiguous substring. -/
def occursIn (pat : Str) : Str → Bool
  | [] => pat.isEmpty
  | c :: rest => startsWith pat (c :: rest) || occursIn pat rest

/-- Number of positions at which `pat` matches (occurrences may overlap;
for the patterns below no two occurrences can overlap). -/
def countPos (pat : Str) : Str → Nat
  | [] => if pat.isEmpty then 1 else 0
  | c :: rest => (if startsWith pat (c :: rest) = true then 1 else 0) + countPos pat rest

/- ### AssetPublisher (`src/routes/publish.js`, `publishDraftAssets`) -/

/-- Whether a draft file is a pre-existing Brotli sibling (skipped by the
publisher: `rel.endsWith('.br')`). -/
def isBrFile (rel : Str) : Bool := endsWith (str ".br") rel

/-- JS `Map.prototype.set`: update an existing key in place, else append. -/
def mapSet : List (Str × Str) → Str → Str → List (Str × Str)
  | [], k, v => [(k, v)]
  | e :: rest, k, v => if e.1 = k then (k, v) :: rest else e :: mapSet rest k v

/-- The `hashByBasePath` map of `publishDraftAssets`: relative path to MD5
hex digest, over the draft-asset listing, skipping `.br` files. -/
def hashByBasePath (entries : List (Str × Bytes)) : List (Str × Str) :=
  entries.foldl (fun m e => if isBrFile e.1 then m else mapSet m e.1 (md5hex e.2)) []

/-- The manifest object written by `publishDraftAssets`: original relative
path mapped to its fingerprinted relative path. -/
def assetManifest (entries : List (Str × Bytes)) : List (Str × Str) :=
  (hashByBasePath entries).map (fun p => (p.1, fingerprintedName p.1 p.2))

/-- The backslash character. -/
def bslash : Char := '\\'

/-- The double-quote character. -/
def quoteChar : Char := Char.ofNat 34

/-- The apostrophe character. -/
def aposChar : Char := Char.ofNat 39

/-- JSON string escaping (backslash, then quote) as performed by
`JSON.stringify` on the path strings of the manifest. -/
def jsonEscape (s : Str) : Str :=
  replaceAll [quoteChar] [bslash, quoteChar] (replaceAll [bslash] [bslash, bslash] s)

/-- Model of `JSON.stringify(manifest, null, 2)`: pretty-printed flat JSON object,
keys in insertion order. -/
def serializeManifest (m : List (Str × Str)) : Str :=
  if m = [] then str "\x7b\x7d"
  else
    str "\x7b\n" ++
      List.intercalate (str ",\n")
        (m.map (fun p =>
          str "  \"" ++ jsonEscape p.1 ++ str "\": \"" ++ jsonEscape p.2 ++ str "\"")) ++
      str "\n\x7d"

/-- All file writes performed under `public/assets` by one run of
`publishDraftAssets` over the given draft listing, in program order: for
each non-`.br` file the fingerprinted copy and its Brotli sibling, then
the manifest file. `compress` stands for `zlib.brotliCompressSync`. -/
def publishAssetsWrites (compress : Bytes → Bytes)
    (entries : List (Str × Bytes)) : List (Str × Bytes) :=
  (entries.filter (fun e => ¬ isBrFile e.1)).flatMap
    (fun e =>
      [(fingerprintedName e.1 (md5hex e.2), e.2),
       (fingerprintedName e.1 (md5hex e.2) ++ str ".br", compress e.2)]) ++
  [(str "manifest.json", strBytes (serializeManifest (assetManifest entries)))]

/-- A file store: relative path to contents. -/
def Store := Str → Option Bytes

/-- Apply a write list to a store in order (later writes win). -/
def applyWrites (ws : List (Str × Bytes)) (s : Store) : Store :=
  ws.foldl (fun st w => fun k => if k = w.1 then some w.2 else st k) s

/-- The last write to a key in a write list, if any (specification device
for `applyWrites`). -/
def findLastW : List (Str × Bytes) → Str → Option Bytes
  | [], _ => none
  | w :: ws, k =>
    match findLastW ws k with
    | some b => some b
    | none => if k = w.1 then some w.2 else none

/-- The effect of one `publishDraftAssets` run on the public asset store. -/
def publishAssetsStore (compress : Bytes → Bytes)
    (entries : List (Str × Bytes)) (pub : Store) : Store :=
  applyWrites (publishAssetsWrites compress entries) pub

/- ### AssetManifest (`src/services/asset-manifest.js`) -/

/-- Model of `rewriteAssetPaths(html)`: early return on empty html or manifest,
otherwise replace `assets/<original>` by `assets/<fingerprinted>` for each
manifest pair in insertion order. -/
def rewriteAssetPaths (manifest : List (Str × Str)) (html : Str) : Str :=
  if html = [] ∨ manifest = [] then html
  else
    manifest.foldl
      (fun result e => replaceAll (str "assets/" ++ e.1) (str "assets/" ++ e.2) result)
      html

/-- The claim's own description of `rewrite` (spec side of the refinement):
for every cached pair replace every literal occurrence of
`assets/<original>` with `assets/<fingerprinted>` throughout the document. -/
def rewriteClaimed (manifest : List (Str × Str)) (html : Str) : Str :=
  manifest.foldl
    (fun result e => replaceAll (str "assets/" ++ e.1) (str "assets/" ++ e.2) result)
    html

/- ### SitemapGenerator (`src/services/sitemap.js`) -/

/-- Model of `escapeXml`: chained global single-character replacements, in source
order (`&`, `<`, `>`, `"`, `'`). -/
def escapeXml (s : Str) : Str :=
  replaceAll [aposChar] (str "&apos;")
    (replaceAll [quoteChar] (str "&quot;")
      (replaceAll ['>'] (str "&gt;")
        (replaceAll ['<'] (str "&lt;")
          (replaceAll ['&'] (str "&amp;") s))))

/-- Strip a final `.html` (the `\.html$` regex replace). -/
def stripHtmlSuffix (p : Str) : Str :=
  if endsWith (str ".html") p then p.take (p.length - 5) else p

/-- Model of `pagePathToUrlPath`: strip the extension, map index files to their
directory root with a trailing slash, otherwise prepend a slash. -/
def pagePathToUrlPath (pagePath : Str) : Str :=
  let urlPath := stripHtmlSuffix pagePath
  if urlPath = str "index" then str "/"
  else if endsWith (str "/index") urlPath then
    sep :: (urlPath.take (urlPath.length - 6) ++ [sep])
  else sep :: urlPath

/-- One `<url>` block of the sitemap. -/
def sitemapEntry (cleanBaseUrl : Str) (page : Str × Str) : Str :=
  str "  <url>\n    <loc>" ++
    escapeXml (cleanBaseUrl ++ pagePathToUrlPath page.1) ++
    str "</loc>\n    <lastmod>" ++ page.2 ++ str "</lastmod>\n  </url>"

/-- Model of `generateSitemapXml(pages, baseUrl)`; each page is a pair of relative
path and `YYYY-MM-DD` last-modified date. -/
def generateSitemapXml (pages : List (Str × Str)) (baseUrl : Str) : Str :=
  let cleanBaseUrl := if endsWith (str "/") baseUrl then baseUrl.dropLast else baseUrl
  let urlEntries := List.intercalate (str "\n") (pages.map (sitemapEntry cleanBaseUrl))
  str "<?xml version=\"1.0\" encoding=\"UTF-8\"?>\n<urlset xmlns=\"http://www.sitemaps.org/schemas/sitemap/0.9\">\n" ++
    urlEntries ++ str "\n</urlset>\n"

/-- The base URL used when the `SITE_URL` environment variable is unset. -/
def defaultBaseUrl : Str := str "http://localhost:3000"

/-- The sitemap's path inside the public tree. -/
def sitemapName : Str := str "sitemap.xml"

/- ### The public file tree as seen by the routes -/

/-- A stored file: raw bytes plus the `YYYY-MM-DD` date of its mtime (the
only mtime information the sitemap uses). -/
structure PubFile where
  content : Bytes
  mtimeDate : Str
deriving DecidableEq

/-- The public tree, flattened to an association list from relative path
to file (the recursive directory walks of the source enumerate exactly
these paths). -/
abbrev PubStore := List (Str × PubFile)

/-- Store lookup (`fs.access` / `fs.readFile`). -/
def lookupStore : PubStore → Str → Option PubFile
  | [], _ => none
  | e :: rest, k => if e.1 = k then some e.2 else lookupStore rest k

/-- Store write (`fs.writeFile` / `fs.copyFile`): overwrite or create. -/
def setStore : PubStore → Str → PubFile → PubStore
  | [], k, v => [(k, v)]
  | e :: rest, k, v => if e.1 = k then (k, v) :: rest else e :: setStore rest k v

/-- Store deletion (`fs.unlink`). -/
def eraseStore : PubStore → Str → PubStore
  | [], _ => []
  | e :: rest, k => if e.1 = k then eraseStore rest k else e :: eraseStore rest k

/-- Model of `listPublishedPages`: every `.html` file of the public tree with its
last-modified date. -/
def listPublishedPages (pub : PubStore) : List (Str × Str) :=
  (pub.filter (fun e => endsWith (str ".html") e.1)).map (fun e => (e.1, e.2.mtimeDate))

/-- Model of `generateSitemap()`: write the sitemap generated from the current
public tree (with the default base URL) to `sitemap.xml`. -/
def writeSitemap (pub : PubStore) : PubStore :=
  setStore pub sitemapName
    ⟨strBytes (generateSitemapXml (listPublishedPages pub) defaultBaseUrl), []⟩

/-- Apply one `publishDraftAssets` run to the public tree (`none` models a
missing `drafts/assets` directory: the ENOENT early return writes
nothing). Asset writes land under `assets/`. -/
def applyAssetWritesPub (compress : Bytes → Bytes)
    (draftAssets : Option (List (Str × Bytes))) (pub : PubStore) : PubStore :=
  match draftAssets with
  | none => pub
  | some entries =>
    (publishAssetsWrites compress entries).foldl
      (fun st w => setStore st (str "assets/" ++ w.1) ⟨w.2, []⟩) pub

/- ### Route handlers (`src/routes/publish.js`) -/

/-- The side-effect services a route may trigger. -/
inductive Service where
  | assets
  | sitemapGen
  | sitemapDelete
deriving DecidableEq

/-- Outcome of a single-page route: HTTP status, success flag, resulting
public tree, and the services the handler invoked. -/
structure RouteOut where
  status : Nat
  ok : Bool
  pub : PubStore
  invoked : List Service
deriving DecidableEq

/-- Model of `DELETE /publish/*`: validate the path, 404 unless a public copy
exists, unlink it, then regenerate the sitemap (best effort: a sitemap
failure is logged and the response is still a success). -/
def unpublishRoute (publicDir pagePath : Str) (pub : PubStore)
    (sitemapFails : Bool) : RouteOut :=
  match safePath publicDir pagePath with
  | .error _ => ⟨400, false, pub, []⟩
  | .ok _ =>
    match lookupStore pub pagePath with
    | none => ⟨404, false, pub, []⟩
    | some _ =>
      let pub1 := eraseStore pub pagePath
      let pub2 := if sitemapFails then pub1 else writeSitemap pub1
      ⟨200, true, pub2, [Service.sitemapGen]⟩

/-- Model of `POST /publish/*`: validate the path against both roots, 404 unless a
draft exists, copy it into the public tree, then run the asset publisher
and the sitemap generator (both best effort; `pageMtimeDate` is the date
the copied file carries afterwards). -/
def publishOneRoute (draftsDir publicDir pagePath : Str)
    (drafts : Str → Option Bytes) (draftAssets : Option (List (Str × Bytes)))
    (pub : PubStore) (pageMtimeDate : Str) (compress : Bytes → Bytes)
    (assetsFails sitemapFails : Bool) : RouteOut :=
  if pagePath = [] then ⟨200, false, pub, []⟩
  else
    match safePath draftsDir pagePath, safePath publicDir pagePath with
    | .error _, _ => ⟨400, false, pub, []⟩
    | _, .error _ => ⟨400, false, pub, []⟩
    | .ok _, .ok _ =>
      match drafts pagePath with
      | none => ⟨404, false, pub, []⟩
      | some content =>
        let pub1 := setStore pub pagePath ⟨content, pageMtimeDate⟩
        let pub2 := if assetsFails then pub1
                    else applyAssetWritesPub compress draftAssets pub1
        let pub3 := if sitemapFails then pub2 else writeSitemap pub2
        ⟨200, true, pub3, [Service.assets, Service.sitemapGen]⟩

/-- Outcome of the batch publish route. -/
structure BatchOut where
  status : Nat
  ok : Bool
  published : List Str
  errors : List (Str × Str)
  pub : PubStore
  invoked : List Service
deriving DecidableEq

/-- One iteration of the page-copy loop of `POST /publish`: on success the
page is appended to `published` and copied; on failure a `{path, error}`
entry is appended to `errors` and the loop continues. -/
def copyPageStep (drafts : Str → Option Bytes) (dates : Str → Str)
    (acc : List Str × List (Str × Str) × PubStore) (p : Str) :
    List Str × List (Str × Str) × PubStore :=
  match drafts p with
  | some c => (acc.1 ++ [p], acc.2.1, setStore acc.2.2 p ⟨c, dates p⟩)
  | none => (acc.1, acc.2.1 ++ [(p, str "ENOENT")], acc.2.2)

/-- Model of `POST /publish`: 400 when there are no draft pages, otherwise copy
every page (continuing past failures), then run the asset publisher
(its failure is appended to `errors`) and the sitemap generator (its
failure only logged). `drafts` is the draft tree at copy time; `dates`
gives the mtime date a page carries after copying. -/
def publishAllRoute (pages : List Str) (drafts : Str → Option Bytes)
    (dates : Str → Str) (draftAssets : Option (List (Str × Bytes)))
    (pub : PubStore) (compress : Bytes → Bytes)
    (assetsFails sitemapFails : Bool) : BatchOut :=
  if pages.length = 0 then ⟨400, false, [], [], pub, []⟩
  else
    let r := pages.foldl (copyPageStep drafts dates) ([], [], pub)
    let errors2 := if assetsFails then r.2.1 ++ [(str "assets", str "assets failed")]
                   else r.2.1
    let pub2 := if assetsFails then r.2.2
                else applyAssetWritesPub compress draftAssets r.2.2
    let pub3 := if sitemapFails then pub2 else writeSitemap pub2
    ⟨200, true, r.1, errors2, pub3, [Service.assets, Service.sitemapGen]⟩

/- ### PublishStatus (`GET /publish/status/*`) -/

/-- The status route's failure kind (HTTP 404, page not found). -/
inductive StatusError where
  | notFound
deriving DecidableEq

/-- The status payload. -/
structure PageStatus where
  isPublished : Bool
  hasUnpublishedChanges : Bool
deriving DecidableEq

/-- The core of `GET /publish/status/*` after path validation: 404 when no
draft exists; otherwise `isPublished` iff a public copy exists, and
`hasUnpublishedChanges` iff published and the draft mtime is strictly
greater. Inputs are the mtimes of the draft and public copies (`none`
when the file does not exist). -/
def publishStatus (draftMtime publicMtime : Option Nat) :
    Except StatusError PageStatus :=
  match draftMtime with
  | none => .error .notFound
  | some dm =>
    let isPublished := publicMtime.isSome
    let hasChanges :=
      match publicMtime with
      | some pm => decide (pm < dm)
      | none => false
    .ok ⟨isPublished, hasChanges⟩

/- ### Concrete fixtures used by witnesses and counterexamples -/

/-- Five draft pages, as in the spec's batch-publish scenario. -/
def c3Pages : List Str :=
  [str "a.html", str "b.html", str "c.html", str "d.html", str "e.html"]

/-- A draft tree in which one listed page's source has vanished between
listing and copying. -/
def c3Drafts : Str → Option Bytes := fun p =>
  if p = str "c.html" then none else some (strBytes (str "<html></html>"))

/-- A draft asset listing containing a file without an extension. -/
def licenseEntries : List (Str × Bytes) := [(str "LICENSE", strBytes (str "MIT"))]

/-- A public tree whose only page is `index.html` (a stale sitemap file is
also present). -/
def c7PubStore : PubStore :=
  [(str "index.html", ⟨strBytes (str "<html></html>"), str "2026-10-12"⟩),
   (str "sitemap.xml", ⟨[], []⟩)]

/-- A public tree containing one published page. -/
def c8PubStore : PubStore :=
  [(str "about.html", ⟨strBytes (str "<html></html>"), str "2026-10-11"⟩)]

theorem md5hex_empty : md5hex [] = str "d41d8cd98f00b204e9800998ecf8427e" := by
  decide

theorem md5hex_abc :
    md5hex (strBytes (str "abc")) = str "900150983cd24fb0d6963f7d28e17f72" := by
  decide

/- ### Basic string lemmas -/

theorem startsWith_iff (p s : Str) : startsWith p s = true ↔ ∃ t, s = p ++ t := by
  induction p generalizing s with
  | nil => simp [startsWith]
  | cons x xs ih =>
    cases s with
    | nil => simp [startsWith]
    | cons c cs =>
      by_cases hxc : x = c
      · subst hxc
        simp only [startsWith, eq_self_iff_true, if_true, ih, List.cons_append,
          List.cons.injEq, true_and]
      · simp only [startsWith, if_neg hxc, List.cons_append, List.cons.injEq]
        constructor
        · intro h; exact Bool.noConfusion h
        · rintro ⟨t, hct, -⟩; exact absurd hct.symm hxc

theorem startsWith_prepend (p t : Str) : startsWith p (p ++ t) = true :=
  (startsWith_iff p (p ++ t)).2 ⟨t, rfl⟩

theorem startsWith_length_le {p s : Str} (h : startsWith p s = true) :
    p.length ≤ s.length := by
  obtain ⟨t, ht⟩ := (startsWith_iff p s).1 h
  subst ht; simp

theorem startsWith_false_of_lt {p s : Str} (h : s.length < p.length) :
    startsWith p s = false := by
  cases hsw : startsWith p s with
  | false => rfl
  | true => exact absurd (startsWith_length_le hsw) (by omega)

theorem startsWith_append_of_le (p x y : Str) (h : p.length ≤ x.length) :
    startsWith p (x ++ y) = startsWith p x := by
  induction p generalizing x with
  | nil => simp [startsWith]
  | cons a as ih =>
    cases x with
    | nil => simp at h
    | cons c cs =>
      simp only [List.cons_append, startsWith]
      by_cases hac : a = c
      · simp only [if_pos hac]
        exact ih cs (by simpa using h)
      · simp [if_neg hac]

theorem startsWith_append_right {p x y : Str}
    (hsw : startsWith p (x ++ y) = true) (hlt : x.length < p.length) :
    startsWith (p.drop x.length) y = true := by
  obtain ⟨t, ht⟩ := (startsWith_iff p (x ++ y)).1 hsw
  have hsplit : p = p.take x.length ++ p.drop x.length := (List.take_append_drop _ p).symm
  have hlen : x.length = (p.take x.length).length := by
    simp [List.length_take]; omega
  have hx : x ++ y = p.take x.length ++ (p.drop x.length ++ t) := by
    calc x ++ y = p ++ t := ht
    _ = (p.take x.length ++ p.drop x.length) ++ t := by rw [← hsplit]
    _ = p.take x.length ++ (p.drop x.length ++ t) := by rw [List.append_assoc]
  obtain ⟨-, hy⟩ := List.append_inj hx hlen
  exact (startsWith_iff _ y).2 ⟨t, hy⟩

theorem startsWith_getElem {p s : Str} (hsw : startsWith p s = true)
    (i : Nat) (hi : i < p.length) : s[i]? = p[i]? := by
  obtain ⟨t, ht⟩ := (startsWith_iff p s).1 hsw
  subst ht
  rw [List.getElem?_append]
  simp [hi]

theorem startsWith_false_of_clash (p s t : Str) (ch : Char) (i : Nat)
    (hp : p[i]? = some ch) (hch : ch ∉ s) (hi : i < s.length) :
    startsWith p (s ++ t) = false := by
  cases hsw : startsWith p (s ++ t) with
  | false => rfl
  | true =>
    exfalso
    have hip : i < p.length := by
      by_contra hge
      rw [List.getElem?_eq_none (by omega)] at hp
      exact Option.noConfusion hp
    have h1 : (s ++ t)[i]? = some ch := by
      rw [startsWith_getElem hsw i hip]; exact hp
    rw [List.getElem?_append, if_pos hi] at h1
    obtain ⟨hlt, hEq⟩ := List.getElem?_eq_some.1 h1
    exact hch (hEq ▸ List.getElem_mem hlt)

/- ### `countPos` lemmas -/

theorem countPos_nil (pat : Str) (hpat : pat ≠ []) : countPos pat [] = 0 := by
  simp [countPos, List.isEmpty_iff, hpat]

theorem countPos_append (pat a b : Str) (hpat : pat ≠ [])
    (hb : ∀ k, 0 < k → k < pat.length → startsWith (pat.drop k) b = false) :
    countPos pat (a ++ b) = countPos pat a + countPos pat b := by
  induction a with
  | nil => simp [countPos_nil pat hpat]
  | cons c a' ih =>
    have hhead : startsWith pat (c :: (a' ++ b)) = startsWith pat (c :: a') := by
      by_cases hle : pat.length ≤ (c :: a').length
      · exact startsWith_append_of_le pat (c :: a') b hle
      · rw [startsWith_false_of_lt
          (show (c :: a').length < pat.length by simp at hle ⊢; omega)]
        cases hsw : startsWith pat (c :: (a' ++ b)) with
        | false => rfl
        | true =>
          exfalso
          have h3 : startsWith (pat.drop (c :: a').length) b = true :=
            @startsWith_append_right pat (c :: a') b hsw
              (by simp at hle ⊢; omega)
          rw [hb (c :: a').length (by simp) (by simp at hle ⊢; omega)] at h3
          exact Bool.noConfusion h3
    simp only [List.cons_append, countPos, List.append_eq]
    simp only [hhead, ih]
    omega

theorem countPos_zero_of_head_not_mem (ch : Char) (ps s : Str) (h : ch ∉ s) :
    countPos (ch :: ps) s = 0 := by
  induction s with
  | nil => simp [countPos]
  | cons c cs ih =>
    have hne : ch ≠ c := fun hh => h (hh ▸ List.mem_cons_self c cs)
    simp only [countPos, startsWith, if_neg hne]
    simpa using ih (fun hm => h (List.mem_cons_of_mem c hm))

/- ### `replaceAll` lemmas -/

theorem replaceAllGo_congr (pat rep : Str) :
    ∀ f1 f2 s, s.length ≤ f1 → s.length ≤ f2 →
      replaceAllGo pat rep f1 s = replaceAllGo pat rep f2 s := by
  intro f1
  induction f1 with
  | zero =>
    intro f2 s h1 _
    have : s = [] := List.length_eq_zero.1 (by omega)
    subst this
    cases f2 <;> rfl
  | succ n ih =>
    intro f2 s h1 h2
    cases s with
    | nil => cases f2 <;> rfl
    | cons c rest =>
      cases f2 with
      | zero => simp at h2
      | succ m =>
        simp only [replaceAllGo]
        by_cases hc : pat ≠ [] ∧ startsWith pat (c :: rest) = true
        · simp only [if_pos hc]
          congr 1
          have hplen : 1 ≤ pat.length := by
            cases pat with
            | nil => exact absurd rfl hc.1
            | cons _ _ => simp
          exact ih m _ (by simp [List.length_drop] at *; omega)
            (by simp [List.length_drop] at *; omega)
        · simp only [if_neg hc]
          congr 1
          exact ih m rest (by simp at h1; omega) (by simp at h2; omega)

theorem replaceAll_cons (pat rep : Str) (c : Char) (rest : Str) :
    replaceAll pat rep (c :: rest) =
      if pat ≠ [] ∧ startsWith pat (c :: rest) = true then
        rep ++ replaceAll pat rep ((c :: rest).drop pat.length)
      else c :: replaceAll pat rep rest := by
  show replaceAllGo pat rep (c :: rest).length (c :: rest) = _
  simp only [List.length_cons, replaceAllGo]
  by_cases hc : pat ≠ [] ∧ startsWith pat (c :: rest) = true
  · simp only [if_pos hc]
    congr 1
    have hplen : 1 ≤ pat.length := by
      cases hp : pat with
      | nil => exact absurd hp hc.1
      | cons _ _ => simp
    exact replaceAllGo_congr pat rep _ _ _
      (by simp [List.length_drop]; omega) (by simp [List.length_drop])
  · simp only [if_neg hc]
    congr 1

theorem replaceAll_of_occursIn_false (pat rep : Str) :
    ∀ s, occursIn pat s = false → replaceAll pat rep s = s := by
  intro s
  induction s with
  | nil => intro _; rfl
  | cons c rest ih =>
    intro h
    simp only [occursIn, Bool.or_eq_false_iff] at h
    rw [replaceAll_cons]
    rw [if_neg (fun hc => by rw [h.1] at hc; exact Bool.noConfusion hc.2)]
    rw [ih h.2]

theorem mem_replaceAllGo (pat rep : Str) (x : Char) :
    ∀ fuel s, x ∈ replaceAllGo pat rep fuel s → x ∈ s ∨ x ∈ rep := by
  intro fuel
  induction fuel with
  | zero =>
    intro s h
    cases s with
    | nil => simp [replaceAllGo] at h
    | cons c rest => exact Or.inl h
  | succ n ih =>
    intro s h
    cases s with
    | nil => simp [replaceAllGo] at h
    | cons c rest =>
      simp only [replaceAllGo] at h
      by_cases hc : pat ≠ [] ∧ startsWith pat (c :: rest) = true
      · rw [if_pos hc] at h
        rcases List.mem_append.1 h with hrep | hgo
        · exact Or.inr hrep
        · rcases ih _ hgo with hs | hr
          · exact Or.inl (List.drop_subset _ _ hs)
          · exact Or.inr hr
      · rw [if_neg hc] at h
        rcases List.mem_cons.1 h with hx | hgo
        · exact Or.inl (hx ▸ List.mem_cons_self c rest)
        · rcases ih _ hgo with hs | hr
          · exact Or.inl (List.mem_cons_of_mem c hs)
          · exact Or.inr hr

theorem mem_replaceAll {pat rep s : Str} {x : Char}
    (h : x ∈ replaceAll pat rep s) : x ∈ s ∨ x ∈ rep :=
  mem_replaceAllGo pat rep x s.length s h

theorem not_mem_replaceAll_single (ch : Char) (rep : Str) (hrep : ch ∉ rep) :
    ∀ n s, s.length ≤ n → ch ∉ replaceAll [ch] rep s := by
  intro n
  induction n with
  | zero =>
    intro s h
    have : s = [] := List.length_eq_zero.1 (by omega)
    subst this; simp [replaceAll, replaceAllGo]
  | succ n ih =>
    intro s h
    cases s with
    | nil => simp [replaceAll, replaceAllGo]
    | cons c rest =>
      rw [replaceAll_cons]
      by_cases hc : ([ch] : Str) ≠ [] ∧ startsWith [ch] (c :: rest) = true
      · rw [if_pos hc]
        intro hm
        rcases List.mem_append.1 hm with hr | hg
        · exact hrep hr
        · have hdrop : (c :: rest).drop ([ch] : Str).length = rest := by simp
          rw [hdrop] at hg
          exact ih rest (by simp at h; omega) hg
      · rw [if_neg hc]
        intro hm
        have hne : ch ≠ c := by
          intro hh
          exact hc ⟨by simp, by simp [startsWith, hh]⟩
        rcases List.mem_cons.1 hm with hx | hg
        · exact hne hx
        · exact ih rest (by simp at h; omega) hg

theorem not_mem_replaceAll_self (ch : Char) (rep s : Str) (h : ch ∉ rep) :
    ch ∉ replaceAll [ch] rep s :=
  not_mem_replaceAll_single ch rep h s.length s le_rfl

theorem length_replaceAll_ge (pat rep : Str) (h : pat.length ≤ rep.length) :
    ∀ n s, s.length ≤ n → s.length ≤ (replaceAll pat rep s).length := by
  intro n
  induction n with
  | zero =>
    intro s hs
    have : s = [] := List.length_eq_zero.1 (by omega)
    subst this; simp
  | succ n ih =>
    intro s hs
    cases s with
    | nil => simp
    | cons c rest =>
      rw [replaceAll_cons]
      by_cases hc : pat ≠ [] ∧ startsWith pat (c :: rest) = true
      · rw [if_pos hc]
        have hpl1 : 1 ≤ pat.length := by
          cases hp : pat with
          | nil => exact absurd hp hc.1
          | cons _ _ => simp
        have hple : pat.length ≤ rest.length + 1 := by
          have := startsWith_length_le hc.2
          simpa using this
        have hrec : ((c :: rest).drop pat.length).length ≤
            (replaceAll pat rep ((c :: rest).drop pat.length)).length := by
          apply ih
          simp only [List.length_drop, List.length_cons]
          simp at hs
          omega
        have hdl : ((c :: rest).drop pat.length).length = rest.length + 1 - pat.length := by
          simp [List.length_drop]
        rw [hdl] at hrec
        simp only [List.length_append, List.length_cons]
        omega
      · rw [if_neg hc]
        have := ih rest (by simp at hs; omega)
        simp only [List.length_cons]
        omega

/- ### Store lemmas for the asset publisher -/

theorem applyWrites_eq (ws : List (Str × Bytes)) :
    ∀ (s : Store) (k : Str), applyWrites ws s k =
      match findLastW ws k with
      | some b => some b
      | none => s k := by
  induction ws with
  | nil => intro s k; rfl
  | cons w ws ih =>
    intro s k
    show applyWrites ws (fun k' => if k' = w.1 then some w.2 else s k') k = _
    rw [ih]
    simp only [findLastW]
    cases hws : findLastW ws k with
    | some b => rfl
    | none =>
      by_cases hk : k = w.1
      · simp [hk]
      · simp [hk]

theorem applyWrites_idem (ws : List (Str × Bytes)) (s : Store) :
    applyWrites ws (applyWrites ws s) = applyWrites ws s := by
  funext k
  rw [applyWrites_eq, applyWrites_eq]
  cases hws : findLastW ws k with
  | some b => rfl
  | none => rfl

/-- C1: running the asset publish twice over byte-identical draft
contents produces byte-identical fingerprinted filenames and published
file contents — the write list (names and contents) of the second run
equals that of the first, and re-applying it to the public store after the
first run leaves the store unchanged, so the number of publish invocations
does not affect the output. -/
theorem claim1_asset_publish_idempotent
    (compress : Bytes → Bytes) (e₁ e₂ : List (Str × Bytes)) (pub : Store)
    (h : e₁ = e₂) :
    publishAssetsWrites compress e₁ = publishAssetsWrites compress e₂ ∧
    publishAssetsStore compress e₂ (publishAssetsStore compress e₁ pub) =
      publishAssetsStore compress e₁ pub := by
  subst h
  exact ⟨rfl, applyWrites_idem _ _⟩

theorem claim1_witness :
    ([(str "css/main.css", strBytes (str "body"))] : List (Str × Bytes)) =
      [(str "css/main.css", strBytes (str "body"))] ∧
    (publishAssetsWrites id [(str "css/main.css", strBytes (str "body"))] =
        publishAssetsWrites id [(str "css/main.css", strBytes (str "body"))] ∧
      publishAssetsStore id [(str "css/main.css", strBytes (str "body"))]
          (publishAssetsStore id [(str "css/main.css", strBytes (str "body"))]
            (fun _ => none)) =
        publishAssetsStore id [(str "css/main.css", strBytes (str "body"))]
          (fun _ => none)) :=
  ⟨rfl, claim1_asset_publish_idempotent id _ _ (fun _ => none) rfl⟩

/-- C4: the publish status is a 404 error when no draft exists;
otherwise `isPublished` is true iff a public copy exists, and
`hasUnpublishedChanges` is true iff published and the draft mtime is
strictly greater than the public mtime (equal or older drafts give
`false`; unpublished pages give `false`). -/
theorem claim4_publish_status (dm pm : Nat) :
    publishStatus none none = .error .notFound ∧
    publishStatus none (some pm) = .error .notFound ∧
    publishStatus (some dm) none = .ok ⟨false, false⟩ ∧
    publishStatus (some dm) (some pm) = .ok ⟨true, decide (pm < dm)⟩ ∧
    publishStatus (some dm) (some dm) = .ok ⟨true, false⟩ ∧
    (dm ≤ pm → publishStatus (some dm) (some pm) = .ok ⟨true, false⟩) ∧
    (pm < dm → publishStatus (some dm) (some pm) = .ok ⟨true, true⟩) := by
  refine ⟨rfl, rfl, rfl, rfl, ?_, ?_, ?_⟩
  · simp [publishStatus]
  · intro h
    simp [publishStatus, Nat.not_lt.2 h]
  · intro h
    simp [publishStatus, h]

theorem claim4_witness :
    publishStatus (some 7) (some 5) = .ok ⟨true, true⟩ ∧
    publishStatus (some 5) (some 5) = .ok ⟨true, false⟩ ∧
    publishStatus (some 5) (some 7) = .ok ⟨true, false⟩ :=
  ⟨(claim4_publish_status 7 5).2.2.2.2.2.2 (by decide),
   (claim4_publish_status 5 5).2.2.2.2.1,
   (claim4_publish_status 5 7).2.2.2.2.2.1 (by decide)⟩

/-- C10: with no draft pages at all, the batch publish returns a
400-class error and performs no mutation: the public tree is returned
unchanged, nothing is reported published, and neither the asset publisher
nor the sitemap generator is invoked. -/
theorem claim10_publish_all_empty
    (pages : List Str) (drafts : Str → Option Bytes) (dates : Str → Str)
    (draftAssets : Option (List (Str × Bytes))) (pub : PubStore)
    (compress : Bytes → Bytes) (assetsFails sitemapFails : Bool)
    (h : pages = []) :
    publishAllRoute pages drafts dates draftAssets pub compress
        assetsFails sitemapFails = ⟨400, false, [], [], pub, []⟩ := by
  subst h
  rfl

theorem claim10_witness :
    publishAllRoute [] (fun _ => none) (fun _ => []) none
        [(str "index.html", ⟨[], []⟩)] id false false =
      ⟨400, false, [], [], [(str "index.html", ⟨[], []⟩)], []⟩ :=
  claim10_publish_all_empty [] (fun _ => none) (fun _ => []) none
    [(str "index.html", ⟨[], []⟩)] id false false rfl

/- ### Batch copy lemmas -/

theorem copyPages_foldl (drafts : Str → Option Bytes) (dates : Str → Str)
    (pages : List Str) :
    ∀ acc : List Str × List (Str × Str) × PubStore,
      (pages.foldl (copyPageStep drafts dates) acc).1 =
        acc.1 ++ pages.filter (fun p => (drafts p).isSome) ∧
      (pages.foldl (copyPageStep drafts dates) acc).2.1 =
        acc.2.1 ++
          (pages.filter (fun p => (drafts p).isNone)).map
            (fun p => (p, str "ENOENT")) := by
  induction pages with
  | nil => intro acc; simp
  | cons p ps ih =>
    intro acc
    simp only [List.foldl_cons, List.filter_cons]
    cases hd : drafts p with
    | some c =>
      have h := ih (copyPageStep drafts dates acc p)
      simp only [copyPageStep, hd] at h
      simp [copyPageStep, hd, h.1, h.2]
    | none =>
      have h := ih (copyPageStep drafts dates acc p)
      simp only [copyPageStep, hd] at h
      simp [copyPageStep, hd, h.1, h.2]

/-- C3: over a non-empty page list the batch publish copies what it
can, never aborts, and reports `published` as exactly the pages whose
draft source was readable and one `{path, error}` entry per failed page. -/
theorem claim3_publish_all_partial_failure
    (pages : List Str) (drafts : Str → Option Bytes) (dates : Str → Str)
    (draftAssets : Option (List (Str × Bytes))) (pub : PubStore)
    (compress : Bytes → Bytes) (sitemapFails : Bool)
    (h : pages ≠ []) :
    (publishAllRoute pages drafts dates draftAssets pub compress
        false sitemapFails).status = 200 ∧
    (publishAllRoute pages drafts dates draftAssets pub compress
        false sitemapFails).ok = true ∧
    (publishAllRoute pages drafts dates draftAssets pub compress
        false sitemapFails).published =
      pages.filter (fun p => (drafts p).isSome) ∧
    (publishAllRoute pages drafts dates draftAssets pub compress
        false sitemapFails).errors =
      (pages.filter (fun p => (drafts p).isNone)).map
        (fun p => (p, str "ENOENT")) := by
  have hlen : ¬ pages.length = 0 := fun hh => h (List.length_eq_zero.1 hh)
  obtain ⟨h1, h2⟩ := copyPages_foldl drafts dates pages ([], [], pub)
  unfold publishAllRoute
  rw [if_neg hlen]
  refine ⟨rfl, rfl, ?_, ?_⟩
  · show (pages.foldl (copyPageStep drafts dates) ([], [], pub)).1 = _
    rw [h1]
    simp
  · show (pages.foldl (copyPageStep drafts dates) ([], [], pub)).2.1 = _
    rw [h2]
    simp

theorem claim3_witness :
    c3Pages ≠ [] ∧
    (publishAllRoute c3Pages c3Drafts (fun _ => []) none [] id
        false false).published =
      [str "a.html", str "b.html", str "d.html", str "e.html"] ∧
    (publishAllRoute c3Pages c3Drafts (fun _ => []) none [] id
        false false).errors = [(str "c.html", str "ENOENT")] := by
  have h := claim3_publish_all_partial_failure c3Pages c3Drafts (fun _ => [])
    none [] id false (by decide)
  exact ⟨by decide, h.2.2.1.trans (by decide), h.2.2.2.trans (by decide)⟩

/- ### Rewrite lemmas -/

theorem rewriteClaimed_nil : ∀ m : List (Str × Str), rewriteClaimed m [] = [] := by
  intro m
  induction m with
  | nil => rfl
  | cons e m ih =>
    simp only [rewriteClaimed, List.foldl_cons]
    have hz : replaceAll (str "assets/" ++ e.1) (str "assets/" ++ e.2) [] = [] := rfl
    rw [hz]
    exact ih

theorem rewriteClaimed_no_occurs :
    ∀ (m : List (Str × Str)) (html : Str),
      (∀ p ∈ m, occursIn (str "assets/" ++ p.1) html = false) →
      rewriteClaimed m html = html := by
  intro m
  induction m with
  | nil => intro html _; rfl
  | cons e m ih =>
    intro html h
    simp only [rewriteClaimed, List.foldl_cons]
    rw [replaceAll_of_occursIn_false _ _ _ (h e (List.mem_cons_self e m))]
    exact ih html (fun p hp => h p (List.mem_cons_of_mem e hp))

theorem rewrite_eq_claimed (m : List (Str × Str)) (html : Str) :
    rewriteAssetPaths m html = rewriteClaimed m html := by
  unfold rewriteAssetPaths
  by_cases hc : html = [] ∨ m = []
  · rw [if_pos hc]
    rcases hc with h | h
    · subst h; exact (rewriteClaimed_nil m).symm
    · subst h; rfl
  · rw [if_neg hc]; rfl

/-- C5: `rewrite` is the identity on an empty manifest, and otherwise
performs, pair by pair in manifest order, the literal replacement of every
occurrence of `assets/<original>` by `assets/<fingerprinted>` (the
`rewriteClaimed` reading of the spec); in particular a document containing
no occurrence of any `assets/<original>` is returned unchanged. -/
theorem claim5_rewrite_spec (m : List (Str × Str)) (html : Str) :
    rewriteAssetPaths m html = rewriteClaimed m html ∧
    (m = [] → rewriteAssetPaths m html = html) ∧
    ((∀ p ∈ m, occursIn (str "assets/" ++ p.1) html = false) →
      rewriteAssetPaths m html = html) := by
  refine ⟨rewrite_eq_claimed m html, ?_, ?_⟩
  · intro h
    subst h
    rw [rewrite_eq_claimed]
    rfl
  · intro h
    rw [rewrite_eq_claimed]
    exact rewriteClaimed_no_occurs m html h

theorem claim5_witness :
    (∀ p ∈ [(str "css/x.css", str "css/x.0a1b.css")],
      occursIn (str "assets/" ++ p.1) (str "<p>plain page</p>") = false) ∧
    rewriteAssetPaths [(str "css/x.css", str "css/x.0a1b.css")]
        (str "<p>plain page</p>") = str "<p>plain page</p>" :=
  ⟨by decide, (claim5_rewrite_spec _ _).2.2 (by decide)⟩

/-- C6 counterexample: for the manifest the publisher produces from a
draft tree containing the extensionless file `LICENSE`, rewriting twice
differs from rewriting once — the fingerprinted form contains the original
as a prefix, so the second pass fingerprints it again. -/
theorem claim6_counterexample :
    rewriteAssetPaths (assetManifest licenseEntries)
        (rewriteAssetPaths (assetManifest licenseEntries)
          (str "<a href=\"assets/LICENSE\">x</a>")) ≠
      rewriteAssetPaths (assetManifest licenseEntries)
        (str "<a href=\"assets/LICENSE\">x</a>") := by
  decide

/-- C6 amended: rewriting twice equals rewriting once provided no
`assets/<original>` occurs in the once-rewritten document (true for
manifests whose fingerprinted forms do not reintroduce an original, but
violated by entries for files without an extension). -/
theorem claim6_rewrite_idempotent_amended (m : List (Str × Str)) (html : Str)
    (h : ∀ p ∈ m, occursIn (str "assets/" ++ p.1)
        (rewriteAssetPaths m html) = false) :
    rewriteAssetPaths m (rewriteAssetPaths m html) = rewriteAssetPaths m html := by
  rw [rewrite_eq_claimed m (rewriteAssetPaths m html)]
  exact rewriteClaimed_no_occurs m (rewriteAssetPaths m html) h

theorem claim6_witness :
    (∀ p ∈ assetManifest [(str "style.css", strBytes (str "p"))],
      occursIn (str "assets/" ++ p.1)
        (rewriteAssetPaths (assetManifest [(str "style.css", strBytes (str "p"))])
          (str "<link href=\"assets/style.css\">")) = false) ∧
    rewriteAssetPaths (assetManifest [(str "style.css", strBytes (str "p"))])
        (rewriteAssetPaths (assetManifest [(str "style.css", strBytes (str "p"))])
          (str "<link href=\"assets/style.css\">")) =
      rewriteAssetPaths (assetManifest [(str "style.css", strBytes (str "p"))])
        (str "<link href=\"assets/style.css\">") :=
  ⟨by decide, claim6_rewrite_idempotent_amended _ _ (by decide)⟩

/- ### `lastIndexOf`, `dirname`, `basename` lemmas -/

theorem lastIndexOf_not_mem (c : Char) : ∀ s : Str, c ∉ s → lastIndexOf c s = -1 := by
  intro s
  induction s with
  | nil => intro _; rfl
  | cons x xs ih =>
    intro h
    have hxc : ¬ x = c := fun hh => h (by subst hh; exact List.mem_cons_self x xs)
    have hxs : c ∉ xs := fun hm => h (List.mem_cons_of_mem x hm)
    simp [lastIndexOf, ih hxs, hxc]

theorem lastIndexOf_append (c : Char) (xs ys : Str) (h : c ∉ ys) :
    lastIndexOf c (xs ++ c :: ys) = xs.length := by
  induction xs with
  | nil => simp [lastIndexOf, lastIndexOf_not_mem c ys h]
  | cons x xs ih =>
    simp only [List.cons_append, lastIndexOf, List.append_eq, ih]
    have hne : ((xs.length : Int)) ≠ -1 := by omega
    simp only [if_neg hne, List.length_cons]
    omega

theorem dirname_append (d base : Str) (hb : sep ∉ base) :
    dirname (d ++ sep :: base) = d := by
  unfold dirname
  rw [lastIndexOf_append sep d base hb]
  rw [if_neg (by omega : ¬ ((d.length : Int) < 0))]
  simp [List.take_left]

theorem basename_append (d base : Str) (hb : sep ∉ base) :
    basename (d ++ sep :: base) = base := by
  unfold basename
  rw [lastIndexOf_append sep d base hb]
  rw [if_neg (by omega : ¬ ((d.length : Int) < 0))]
  have hsplit : d ++ sep :: base = (d ++ [sep]) ++ base := by simp
  rw [hsplit]
  have hlen : (d.length : Int).toNat + 1 = (d ++ [sep]).length := by
    simp
  rw [hlen, List.drop_left]

theorem dirname_no_sep (p : Str) (h : sep ∉ p) : dirname p = str "." := by
  unfold dirname
  rw [lastIndexOf_not_mem sep p h]
  rfl

theorem basename_no_sep (p : Str) (h : sep ∉ p) : basename p = p := by
  unfold basename
  rw [lastIndexOf_not_mem sep p h]
  rfl

/-- C9: the fingerprinted name inserts `.<hash>` immediately before the
final extension of the basename (even when the stem itself contains dots),
preserving the directory part, and appends `.<hash>` when the basename has
no extension; `css/bootstrap.min.css` becomes
`css/bootstrap.min.<hash>.css`. -/
theorem claim9_fingerprinted_name
    (d name ext0 base hash : Str)
    (hdne : d ≠ []) (hddot : d ≠ str ".")
    (hname : name ≠ []) (hnsep : sep ∉ name)
    (hesep : sep ∉ ext0) (hedot : dot ∉ ext0)
    (hbsep : sep ∉ base) (hbdot : dot ∉ base) :
    fingerprintedName (d ++ sep :: (name ++ dot :: ext0)) hash =
      d ++ sep :: (name ++ dot :: hash ++ dot :: ext0) ∧
    fingerprintedName (name ++ dot :: ext0) hash =
      name ++ dot :: hash ++ dot :: ext0 ∧
    fingerprintedName (d ++ sep :: base) hash = d ++ sep :: (base ++ dot :: hash) ∧
    fingerprintedName base hash = base ++ dot :: hash ∧
    fingerprintedName (str "css/bootstrap.min.css") (str "d41d8cd98f00b204") =
      str "css/bootstrap.min.d41d8cd98f00b204.css" := by
  have hBsep : sep ∉ name ++ dot :: ext0 := by
    intro hm
    rcases List.mem_append.1 hm with h1 | h1
    · exact hnsep h1
    · rcases List.mem_cons.1 h1 with h2 | h2
      · exact absurd h2 (by decide)
      · exact hesep h2
  have hnamelen : 0 < name.length := List.length_pos.2 hname
  have hlastB : lastIndexOf dot (name ++ dot :: ext0) = name.length :=
    lastIndexOf_append dot name ext0 hedot
  have hdirdot : ¬ (str "." = str ".") → False := fun hh => hh rfl
  refine ⟨?_, ?_, ?_, ?_, by decide⟩
  · unfold fingerprintedName
    dsimp only
    rw [dirname_append d _ hBsep, basename_append d _ hBsep, hlastB]
    rw [if_neg (by omega : ¬ ((name.length : Int) ≤ 0))]
    have htoNat : ((name.length : Int)).toNat = name.length := by omega
    rw [htoNat]
    rw [List.take_left, List.drop_left]
    rw [if_neg hdne]
    unfold joinPath
    rw [if_neg hddot]
  · unfold fingerprintedName
    dsimp only
    rw [dirname_no_sep _ hBsep, basename_no_sep _ hBsep, hlastB]
    rw [if_neg (by omega : ¬ ((name.length : Int) ≤ 0))]
    have htoNat : ((name.length : Int)).toNat = name.length := by omega
    rw [htoNat]
    rw [List.take_left, List.drop_left]
    rw [if_neg (by decide : ¬ (str "." = ([] : Str)))]
    unfold joinPath
    rw [if_pos rfl]
  · unfold fingerprintedName
    dsimp only
    rw [dirname_append d _ hbsep, basename_append d _ hbsep]
    rw [lastIndexOf_not_mem dot base hbdot]
    rw [if_pos (by decide : ((-1 : Int) ≤ 0))]
    unfold joinPath
    rw [if_neg hddot]
  · unfold fingerprintedName
    dsimp only
    rw [dirname_no_sep _ hbsep, basename_no_sep _ hbsep]
    rw [lastIndexOf_not_mem dot base hbdot]
    rw [if_pos (by decide : ((-1 : Int) ≤ 0))]
    unfold joinPath
    rw [if_pos rfl]

theorem claim9_witness :
    fingerprintedName (str "img/icons/logo.v2.png") (str "abcd") =
      str "img/icons/logo.v2.abcd.png" ∧
    fingerprintedName (str "img/icons/LICENSE") (str "abcd") =
      str "img/icons/LICENSE.abcd" :=
  ⟨((claim9_fingerprinted_name (str "img/icons") (str "logo.v2") (str "png")
      (str "LICENSE") (str "abcd") (by decide) (by decide) (by decide)
      (by decide) (by decide) (by decide) (by decide) (by decide)).1).trans
    (by decide),
   ((claim9_fingerprinted_name (str "img/icons") (str "logo.v2") (str "png")
      (str "LICENSE") (str "abcd") (by decide) (by decide) (by decide)
      (by decide) (by decide) (by decide) (by decide) (by decide)).2.2.1).trans
    (by decide)⟩

/- ### Path-splitting lemmas for PathGuard -/

theorem splitSlash_ne_nil : ∀ s : Str, splitSlash s ≠ [] := by
  intro s
  cases s with
  | nil => simp [splitSlash]
  | cons c rest =>
    simp only [splitSlash]
    by_cases hc : c = sep
    · simp [hc]
    · rw [if_neg hc]
      cases splitSlash rest <;> simp

theorem splitSlash_cons_sep (r : Str) : splitSlash (sep :: r) = [] :: splitSlash r := by
  simp [splitSlash]

theorem splitSlash_append_sep :
    ∀ c : Str, sep ∉ c → ∀ r, splitSlash (c ++ sep :: r) = c :: splitSlash r := by
  intro c
  induction c with
  | nil => intro _ r; exact splitSlash_cons_sep r
  | cons x xs ih =>
    intro h r
    have hx : ¬ x = sep := fun hh => h (by rw [hh]; exact List.mem_cons_self sep xs)
    have hxs : sep ∉ xs := fun hm => h (List.mem_cons_of_mem x hm)
    simp only [List.cons_append, splitSlash, List.append_eq, if_neg hx]
    rw [ih hxs r]

theorem splitSlash_no_sep : ∀ c : Str, sep ∉ c → splitSlash c = [c] := by
  intro c
  induction c with
  | nil => intro _; rfl
  | cons x xs ih =>
    intro h
    have hx : ¬ x = sep := fun hh => h (by rw [hh]; exact List.mem_cons_self sep xs)
    have hxs : sep ∉ xs := fun hm => h (List.mem_cons_of_mem x hm)
    simp only [splitSlash, if_neg hx]
    rw [ih hxs]

theorem splitSlash_joinComps_append :
    ∀ cs : List Str, (∀ x ∈ cs, sep ∉ x) → cs ≠ [] →
      ∀ r, splitSlash (joinComps cs ++ sep :: r) = cs ++ splitSlash r := by
  intro cs
  induction cs with
  | nil => intro _ h; exact absurd rfl h
  | cons c cs ih =>
    intro h _ r
    cases cs with
    | nil =>
      show splitSlash (c ++ sep :: r) = [c] ++ splitSlash r
      rw [splitSlash_append_sep c (h c (List.mem_cons_self c [])) r]
      rfl
    | cons c2 cs2 =>
      show splitSlash ((c ++ sep :: joinComps (c2 :: cs2)) ++ sep :: r) = _
      rw [List.append_assoc, List.cons_append]
      rw [splitSlash_append_sep c (h c (List.mem_cons_self c (c2 :: cs2)))]
      rw [ih (fun x hx => h x (List.mem_cons_of_mem c hx)) (by simp) r]
      rfl

theorem splitSlash_joinComps :
    ∀ cs : List Str, (∀ x ∈ cs, sep ∉ x) → cs ≠ [] →
      splitSlash (joinComps cs) = cs := by
  intro cs
  induction cs with
  | nil => intro _ h; exact absurd rfl h
  | cons c cs ih =>
    intro h _
    cases cs with
    | nil =>
      show splitSlash c = [c]
      exact splitSlash_no_sep c (h c (List.mem_cons_self c []))
    | cons c2 cs2 =>
      show splitSlash (c ++ sep :: joinComps (c2 :: cs2)) = _
      rw [splitSlash_append_sep c (h c (List.mem_cons_self c (c2 :: cs2)))]
      rw [ih (fun x hx => h x (List.mem_cons_of_mem c hx)) (by simp)]

theorem joinComps_append :
    ∀ cs ds : List Str, cs ≠ [] → ds ≠ [] →
      joinComps (cs ++ ds) = joinComps cs ++ sep :: joinComps ds := by
  intro cs
  induction cs with
  | nil => intro ds h _; exact absurd rfl h
  | cons c cs ih =>
    intro ds _ hds
    cases cs with
    | nil =>
      cases ds with
      | nil => exact absurd rfl hds
      | cons d ds2 => rfl
    | cons c2 cs2 =>
      show c ++ sep :: joinComps ((c2 :: cs2) ++ ds) =
        (c ++ sep :: joinComps (c2 :: cs2)) ++ sep :: joinComps ds
      rw [ih ds (by simp) hds]
      simp

theorem joinComps_inj (cs ds : List Str)
    (hcs : ∀ x ∈ cs, sep ∉ x) (hds : ∀ x ∈ ds, sep ∉ x)
    (hcne : cs ≠ []) (hdne : ds ≠ [])
    (h : joinComps cs = joinComps ds) : cs = ds := by
  have h1 := splitSlash_joinComps cs hcs hcne
  have h2 := splitSlash_joinComps ds hds hdne
  rw [← h1, ← h2, h]

/- ### Normalization lemmas -/

theorem normStep_empty (acc : List Str) : normStep acc [] = acc := by
  unfold normStep
  rw [if_pos (Or.inl rfl)]

theorem normStep_plain (acc : List Str) (x : Str) (h : plainComp x) :
    normStep acc x = acc ++ [x] := by
  unfold normStep
  rw [if_neg (by rintro (h1 | h2); exacts [h.1 h1, h.2.1 h2]), if_neg h.2.2.1]

theorem normStep_dotdot (acc : List Str) : normStep acc (str "..") = acc.dropLast := by
  unfold normStep
  rw [if_neg (by rintro (h1 | h2) <;> simp_all [str]), if_pos rfl]

theorem foldl_normStep_plain :
    ∀ (cs : List Str) (acc : List Str), (∀ x ∈ cs, plainComp x) →
      List.foldl normStep acc cs = acc ++ cs := by
  intro cs
  induction cs with
  | nil => intro acc _; simp
  | cons c cs ih =>
    intro acc h
    simp only [List.foldl_cons]
    rw [normStep_plain acc c (h c (List.mem_cons_self c cs))]
    rw [ih _ (fun x hx => h x (List.mem_cons_of_mem c hx))]
    simp

theorem resolvePath_root (cs : List Str) (u : Str)
    (hcs : ∀ x ∈ cs, plainComp x) (hne : cs ≠ []) (habs : isAbs u = false) :
    resolvePath (rootStr cs) u =
      sep :: joinComps (List.foldl normStep cs (splitSlash u)) := by
  unfold resolvePath rootStr
  dsimp only
  rw [habs]
  simp only [Bool.false_eq_true, if_false]
  have hcomb : (sep :: joinComps cs) ++ sep :: u = sep :: (joinComps cs ++ sep :: u) := rfl
  rw [hcomb, splitSlash_cons_sep]
  rw [splitSlash_joinComps_append cs (fun x hx => (hcs x hx).2.2.2) hne u]
  unfold normSegs
  rw [List.foldl_cons, normStep_empty, List.foldl_append]
  rw [foldl_normStep_plain cs [] hcs]
  rfl

theorem under_root_iff (cs ds : List Str)
    (hcs : ∀ x ∈ cs, plainComp x) (hds : ∀ x ∈ ds, plainComp x)
    (hcne : cs ≠ []) (hdne : ds ≠ []) :
    startsWith (rootStr cs ++ [sep]) (rootStr ds) = true ↔
      ∃ es, es ≠ [] ∧ ds = cs ++ es := by
  unfold rootStr
  constructor
  · intro h
    have h0 : startsWith (joinComps cs ++ [sep]) (joinComps ds) = true := by
      simpa [startsWith] using h
    obtain ⟨t, ht⟩ := (startsWith_iff _ _).1 h0
    have h2 : splitSlash (joinComps ds) = splitSlash (joinComps cs ++ sep :: t) := by
      rw [ht]
      congr 1
      simp
    rw [splitSlash_joinComps ds (fun x hx => (hds x hx).2.2.2) hdne,
      splitSlash_joinComps_append cs (fun x hx => (hcs x hx).2.2.2) hcne t] at h2
    exact ⟨splitSlash t, splitSlash_ne_nil t, h2⟩
  · rintro ⟨es, hes, rfl⟩
    rw [joinComps_append cs es hcne hes]
    rw [show sep :: (joinComps cs ++ sep :: joinComps es) =
      ((sep :: joinComps cs) ++ [sep]) ++ joinComps es by simp]
    exact startsWith_prepend _ _

theorem rootStr_inj (cs ds : List Str)
    (hcs : ∀ x ∈ cs, plainComp x) (hds : ∀ x ∈ ds, plainComp x)
    (hcne : cs ≠ []) (hdne : ds ≠ [])
    (h : rootStr cs = rootStr ds) : cs = ds := by
  unfold rootStr at h
  exact joinComps_inj cs ds (fun x hx => (hcs x hx).2.2.2)
    (fun x hx => (hds x hx).2.2.2) hcne hdne (List.cons_injective.eq_iff.1 h)

/-- C2 counterexample: the spec's claim that
`resolve(root, "../../etc/passwd")` fails *for any root* is false — for the
root `/etc` the platform-resolved path `/etc/passwd` lies back under the
root, so `safePath` accepts it. -/
theorem claim2_counterexample :
    safePath (str "/etc") (str "../../etc/passwd") = .ok (str "/etc/passwd") := by
  decide

/-- C2 amended: `safePath` errors iff the path is empty or the
resolved path is neither the root nor an extension of it past a separator;
accepted paths lie under the root; `resolve(root, "../../etc/passwd")`
fails for every normalized multi-component root except `/etc` itself and
roots ending in `/etc/passwd`; and `resolve(root, "a/b.html")` succeeds,
returning `root ++ "/a/b.html"`. -/
theorem claim2_safe_path_amended (cs : List Str)
    (hcs : ∀ x ∈ cs, plainComp x) (hne : cs ≠ []) :
    (∀ u, safePath (rootStr cs) u = .error .traversal ↔
      (u = [] ∨ (resolvePath (rootStr cs) u ≠ rootStr cs ∧
        startsWith (rootStr cs ++ [sep]) (resolvePath (rootStr cs) u) = false))) ∧
    (∀ u r, safePath (rootStr cs) u = .ok r →
      (r = rootStr cs ∨ startsWith (rootStr cs ++ [sep]) r = true)) ∧
    (¬ [str "etc", str "passwd"] <:+ cs → cs ≠ [str "etc"] →
      safePath (rootStr cs) (str "../../etc/passwd") = .error .traversal) ∧
    safePath (rootStr cs) (str "a/b.html") =
      .ok (rootStr cs ++ str "/a/b.html") := by
  refine ⟨?_, ?_, ?_, ?_⟩
  · intro u
    unfold safePath
    dsimp only
    by_cases hu : u = []
    · rw [if_pos hu]
      simp [hu]
    · rw [if_neg hu]
      by_cases hg : resolvePath (rootStr cs) u ≠ rootStr cs ∧
          ¬ startsWith (rootStr cs ++ [sep]) (resolvePath (rootStr cs) u) = true
      · rw [if_pos hg]
        constructor
        · intro _
          refine Or.inr ⟨hg.1, ?_⟩
          cases hsw : startsWith (rootStr cs ++ [sep]) (resolvePath (rootStr cs) u) with
          | false => rfl
          | true => exact absurd hsw hg.2
        · intro _; rfl
      · rw [if_neg hg]
        constructor
        · intro h; exact Except.noConfusion h
        · rintro (h1 | ⟨h2, h3⟩)
          · exact absurd h1 hu
          · exact absurd ⟨h2, by rw [h3]; simp⟩ hg
  · intro u r h
    unfold safePath at h
    dsimp only at h
    by_cases hu : u = []
    · rw [if_pos hu] at h; exact Except.noConfusion h
    · rw [if_neg hu] at h
      by_cases hg : resolvePath (rootStr cs) u ≠ rootStr cs ∧
          ¬ startsWith (rootStr cs ++ [sep]) (resolvePath (rootStr cs) u) = true
      · rw [if_pos hg] at h; exact Except.noConfusion h
      · rw [if_neg hg] at h
        have hr : r = resolvePath (rootStr cs) u := (Except.ok.inj h).symm
        subst hr
        rcases not_and_or.1 hg with h1 | h2
        · exact Or.inl (not_not.1 h1)
        · exact Or.inr (not_not.1 h2)
  · intro hsuf hetc
    have hsplit : splitSlash (str "../../etc/passwd") =
        [str "..", str "..", str "etc", str "passwd"] := by decide
    have habs : isAbs (str "../../etc/passwd") = false := by decide
    have hres := resolvePath_root cs (str "../../etc/passwd") hcs hne habs
    rw [hsplit] at hres
    have hfold : List.foldl normStep cs [str "..", str "..", str "etc", str "passwd"] =
        cs.dropLast.dropLast ++ [str "etc", str "passwd"] := by
      simp only [List.foldl_cons, List.foldl_nil]
      rw [normStep_dotdot, normStep_dotdot,
        normStep_plain _ _ (by decide), normStep_plain _ _ (by decide)]
      simp
    rw [hfold] at hres
    have hres2 : resolvePath (rootStr cs) (str "../../etc/passwd") =
        rootStr (cs.dropLast.dropLast ++ [str "etc", str "passwd"]) := hres
    have hdsplain : ∀ x ∈ cs.dropLast.dropLast ++ [str "etc", str "passwd"],
        plainComp x := by
      intro x hx
      rcases List.mem_append.1 hx with h1 | h1
      · exact hcs x (List.dropLast_subset _ (List.dropLast_subset _ h1))
      · rcases List.mem_cons.1 h1 with h2 | h2
        · subst h2; decide
        · rcases List.mem_cons.1 h2 with h3 | h3
          · subst h3; decide
          · exact absurd h3 (List.not_mem_nil x)
    have hdne2 : cs.dropLast.dropLast ++ [str "etc", str "passwd"] ≠ [] := by simp
    have hcond : rootStr (cs.dropLast.dropLast ++ [str "etc", str "passwd"]) ≠
          rootStr cs ∧
        ¬ startsWith (rootStr cs ++ [sep])
          (rootStr (cs.dropLast.dropLast ++ [str "etc", str "passwd"])) = true := by
      constructor
      · intro heq
        have hdc := rootStr_inj _ cs hdsplain hcs hdne2 hne heq
        exact hsuf ⟨cs.dropLast.dropLast, hdc⟩
      · intro hsw
        obtain ⟨es, hes, hdseq⟩ :=
          (under_root_iff cs _ hcs hdsplain hne hdne2).1 hsw
        have hlds : (cs.dropLast.dropLast ++ [str "etc", str "passwd"]).length =
            cs.length - 1 - 1 + 2 := by
          simp [List.length_dropLast]
        have hlen2 : (cs.dropLast.dropLast ++ [str "etc", str "passwd"]).length =
            cs.length + es.length := by
          rw [hdseq]; simp
        have hc1 : 0 < cs.length := List.length_pos.2 hne
        by_cases hc2 : 2 ≤ cs.length
        · have hz : es.length = 0 := by omega
          exact hes (List.length_eq_zero.1 hz)
        · have hcs1 : cs.length = 1 := by omega
          obtain ⟨x, rfl⟩ := List.length_eq_one.1 hcs1
          have hds2 : ([x] : List Str).dropLast.dropLast ++
              [str "etc", str "passwd"] = [str "etc", str "passwd"] := by simp
          rw [hds2] at hdseq
          have hx : str "etc" = x := (List.cons.inj hdseq).1
          exact hetc (by rw [← hx])
    unfold safePath
    dsimp only
    rw [if_neg (by decide : ¬ (str "../../etc/passwd") = ([] : Str))]
    rw [hres2, if_pos hcond]
  · have habs : isAbs (str "a/b.html") = false := by decide
    have hsplit : splitSlash (str "a/b.html") = [str "a", str "b.html"] := by decide
    have hres := resolvePath_root cs (str "a/b.html") hcs hne habs
    rw [hsplit] at hres
    have hfold : List.foldl normStep cs [str "a", str "b.html"] =
        cs ++ [str "a", str "b.html"] := by
      simp only [List.foldl_cons, List.foldl_nil]
      rw [normStep_plain _ _ (by decide), normStep_plain _ _ (by decide)]
      simp
    rw [hfold] at hres
    have hjoin : joinComps (cs ++ [str "a", str "b.html"]) =
        joinComps cs ++ sep :: str "a/b.html" := by
      rw [joinComps_append cs _ hne (by simp)]
      rw [show joinComps [str "a", str "b.html"] = str "a/b.html" by decide]
    have hresolved : resolvePath (rootStr cs) (str "a/b.html") =
        (rootStr cs ++ [sep]) ++ str "a/b.html" := by
      rw [hres, hjoin]
      simp [rootStr]
    unfold safePath
    dsimp only
    rw [if_neg (by decide : ¬ (str "a/b.html") = ([] : Str))]
    rw [hresolved]
    rw [if_neg (fun hg => hg.2 (startsWith_prepend _ _))]
    congr 1
    rw [List.append_assoc]
    congr 1

theorem claim2_witness :
    safePath (rootStr [str "srv", str "app", str "drafts"])
        (str "../../etc/passwd") = .error .traversal ∧
    safePath (rootStr [str "srv", str "app", str "drafts"]) (str "a/b.html") =
      .ok (rootStr [str "srv", str "app", str "drafts"] ++ str "/a/b.html") :=
  ⟨(claim2_safe_path_amended [str "srv", str "app", str "drafts"]
      (by decide) (by decide)).2.2.1 (by decide) (by decide),
   (claim2_safe_path_amended [str "srv", str "app", str "drafts"]
      (by decide) (by decide)).2.2.2⟩

/- ### Store lemmas -/

theorem lookupStore_set_self :
    ∀ (st : PubStore) (k : Str) (v : PubFile),
      lookupStore (setStore st k v) k = some v := by
  intro st
  induction st with
  | nil => intro k v; simp [setStore, lookupStore]
  | cons e st ih =>
    intro k v
    simp only [setStore]
    by_cases he : e.1 = k
    · rw [if_pos he]
      simp [lookupStore]
    · rw [if_neg he]
      simp only [lookupStore, if_neg he]
      exact ih k v

theorem lookupStore_set_ne :
    ∀ (st : PubStore) (k k' : Str) (v : PubFile), k ≠ k' →
      lookupStore (setStore st k' v) k = lookupStore st k := by
  intro st
  induction st with
  | nil =>
    intro k k' v h
    show lookupStore [(k', v)] k = lookupStore [] k
    simp only [lookupStore]
    rw [if_neg (fun hh => h hh.symm)]
  | cons e st ih =>
    intro k k' v h
    simp only [setStore]
    by_cases he : e.1 = k'
    · rw [if_pos he]
      simp only [lookupStore]
      rw [if_neg (fun hh => h hh.symm),
        if_neg (show ¬ e.1 = k by rw [he]; exact fun hh => h hh.symm)]
    · rw [if_neg he]
      simp only [lookupStore]
      by_cases hek : e.1 = k
      · rw [if_pos hek, if_pos hek]
      · rw [if_neg hek, if_neg hek]
        exact ih k k' v h

theorem lookupStore_erase_self :
    ∀ (st : PubStore) (k : Str), lookupStore (eraseStore st k) k = none := by
  intro st
  induction st with
  | nil => intro k; rfl
  | cons e st ih =>
    intro k
    simp only [eraseStore]
    by_cases he : e.1 = k
    · rw [if_pos he]
      exact ih k
    · rw [if_neg he]
      simp only [lookupStore, if_neg he]
      exact ih k

theorem lookup_assetWrites_ne (compress : Bytes → Bytes)
    (draftAssets : Option (List (Str × Bytes))) (st : PubStore) (k : Str)
    (h : startsWith (str "assets/") k = false) :
    lookupStore (applyAssetWritesPub compress draftAssets st) k = lookupStore st k := by
  cases draftAssets with
  | none => rfl
  | some entries =>
    show lookupStore ((publishAssetsWrites compress entries).foldl
      (fun st w => setStore st (str "assets/" ++ w.1) ⟨w.2, []⟩) st) k = _
    generalize publishAssetsWrites compress entries = ws
    induction ws generalizing st with
    | nil => rfl
    | cons w ws ih =>
      simp only [List.foldl_cons]
      rw [ih (setStore st (str "assets/" ++ w.1) ⟨w.2, []⟩)]
      apply lookupStore_set_ne
      intro hk
      rw [hk, startsWith_prepend] at h
      exact Bool.noConfusion h

/- ### XML escaping and url-entry counting -/

theorem not_mem_replaceAll_preserve {x : Char} {pat rep s : Str}
    (hs : x ∉ s) (hr : x ∉ rep) : x ∉ replaceAll pat rep s :=
  fun hm => (mem_replaceAll hm).elim hs hr

theorem escapeXml_no_angle (s : Str) : '<' ∉ escapeXml s ∧ '>' ∉ escapeXml s := by
  unfold escapeXml
  constructor
  · have h1 : '<' ∉ replaceAll ['<'] (str "&lt;")
        (replaceAll ['&'] (str "&amp;") s) :=
      not_mem_replaceAll_self _ _ _ (by decide)
    have h2 := @not_mem_replaceAll_preserve '<' ['>'] (str "&gt;")
      _ h1 (by decide)
    have h3 := @not_mem_replaceAll_preserve '<' [quoteChar] (str "&quot;")
      _ h2 (by decide)
    exact @not_mem_replaceAll_preserve '<' [aposChar] (str "&apos;")
      _ h3 (by decide)
  · have h1 : '>' ∉ replaceAll ['>'] (str "&gt;")
        (replaceAll ['<'] (str "&lt;") (replaceAll ['&'] (str "&amp;") s)) :=
      not_mem_replaceAll_self _ _ _ (by decide)
    have h2 := @not_mem_replaceAll_preserve '>' [quoteChar] (str "&quot;")
      _ h1 (by decide)
    exact @not_mem_replaceAll_preserve '>' [aposChar] (str "&apos;")
      _ h2 (by decide)

theorem length_escapeXml_ge (s : Str) : s.length ≤ (escapeXml s).length := by
  unfold escapeXml
  have l1 := length_replaceAll_ge ['&'] (str "&amp;") (by decide)
    s.length s le_rfl
  have l2 := length_replaceAll_ge ['<'] (str "&lt;") (by decide)
    _ (replaceAll ['&'] (str "&amp;") s) le_rfl
  have l3 := length_replaceAll_ge ['>'] (str "&gt;") (by decide)
    _ (replaceAll ['<'] (str "&lt;") (replaceAll ['&'] (str "&amp;") s)) le_rfl
  have l4 := length_replaceAll_ge [quoteChar] (str "&quot;") (by decide)
    _ (replaceAll ['>'] (str "&gt;")
      (replaceAll ['<'] (str "&lt;") (replaceAll ['&'] (str "&amp;") s))) le_rfl
  have l5 := length_replaceAll_ge [aposChar] (str "&apos;") (by decide)
    _ (replaceAll [quoteChar] (str "&quot;")
      (replaceAll ['>'] (str "&gt;")
        (replaceAll ['<'] (str "&lt;")
          (replaceAll ['&'] (str "&amp;") s)))) le_rfl
  omega

theorem intercalate_singleton (s x : Str) : List.intercalate s [x] = x := by
  simp [List.intercalate]

theorem sitemapXml_single (p lm : Str) :
    generateSitemapXml [(p, lm)] defaultBaseUrl =
      str "<?xml version=\"1.0\" encoding=\"UTF-8\"?>\n<urlset xmlns=\"http://www.sitemaps.org/schemas/sitemap/0.9\">\n" ++
      (str "  <url>\n    <loc>" ++
        (escapeXml (defaultBaseUrl ++ pagePathToUrlPath p) ++
          (str "</loc>\n    <lastmod>" ++
            (lm ++ (str "</lastmod>\n  </url>" ++ str "\n</urlset>\n"))))) := by
  unfold generateSitemapXml sitemapEntry
  dsimp only
  rw [show endsWith (str "/") defaultBaseUrl = false by decide]
  simp only [Bool.false_eq_true, if_false, List.map_cons, List.map_nil]
  rw [intercalate_singleton]
  simp [List.append_assoc]

theorem urlPat_head_cases (b : Str)
    (h1 : startsWith (str "url>") b = false)
    (h2 : startsWith (str "rl>") b = false)
    (h3 : startsWith (str "l>") b = false)
    (h4 : startsWith (str ">") b = false) :
    ∀ k, 0 < k → k < (str "<url>").length →
      startsWith ((str "<url>").drop k) b = false := by
  intro k hk1 hk2
  have h5 : (str "<url>").length = 5 := by decide
  have hk : k = 1 ∨ k = 2 ∨ k = 3 ∨ k = 4 := by omega
  rcases hk with rfl | rfl | rfl | rfl
  · rw [show (str "<url>").drop 1 = str "url>" by decide]; exact h1
  · rw [show (str "<url>").drop 2 = str "rl>" by decide]; exact h2
  · rw [show (str "<url>").drop 3 = str "l>" by decide]; exact h3
  · rw [show (str "<url>").drop 4 = str ">" by decide]; exact h4

theorem urlPat_clash (s t : Str) (hgt : '>' ∉ s) (hlen : 4 ≤ s.length) :
    ∀ k, 0 < k → k < (str "<url>").length →
      startsWith ((str "<url>").drop k) (s ++ t) = false := by
  apply urlPat_head_cases
  · exact startsWith_false_of_clash _ s t '>' 3 (by decide) hgt (by omega)
  · exact startsWith_false_of_clash _ s t '>' 2 (by decide) hgt (by omega)
  · exact startsWith_false_of_clash _ s t '>' 1 (by decide) hgt (by omega)
  · exact startsWith_false_of_clash _ s t '>' 0 (by decide) hgt (by omega)

theorem countPos_url_zero (s : Str) (h : '<' ∉ s) :
    countPos (str "<url>") s = 0 := by
  rw [show (str "<url>") = '<' :: str "url>" by decide]
  exact countPos_zero_of_head_not_mem '<' (str "url>") s h

theorem countPos_url_sitemap_single (p lm : Str)
    (hlm1 : '<' ∉ lm) (hlm2 : '>' ∉ lm) (hlm3 : 4 ≤ lm.length) :
    countPos (str "<url>") (generateSitemapXml [(p, lm)] defaultBaseUrl) = 1 := by
  have hesc_lt := (escapeXml_no_angle (defaultBaseUrl ++ pagePathToUrlPath p)).1
  have hesc_gt := (escapeXml_no_angle (defaultBaseUrl ++ pagePathToUrlPath p)).2
  have hesclen : 4 ≤ (escapeXml (defaultBaseUrl ++ pagePathToUrlPath p)).length := by
    have h1 := length_escapeXml_ge (defaultBaseUrl ++ pagePathToUrlPath p)
    have h2 : (defaultBaseUrl ++ pagePathToUrlPath p).length =
        21 + (pagePathToUrlPath p).length := by
      rw [List.length_append]
      have : defaultBaseUrl.length = 21 := by decide
      omega
    omega
  have hpat : (str "<url>") ≠ [] := by decide
  rw [sitemapXml_single p lm]
  rw [countPos_append (str "<url>") _ _ hpat
    (urlPat_head_cases _
      (by rw [startsWith_append_of_le _ (str "  <url>\n    <loc>") _ (by decide)]; decide)
      (by rw [startsWith_append_of_le _ (str "  <url>\n    <loc>") _ (by decide)]; decide)
      (by rw [startsWith_append_of_le _ (str "  <url>\n    <loc>") _ (by decide)]; decide)
      (by rw [startsWith_append_of_le _ (str "  <url>\n    <loc>") _ (by decide)]; decide))]
  rw [countPos_append (str "<url>") _ _ hpat
    (urlPat_clash _ _ hesc_gt hesclen)]
  rw [countPos_append (str "<url>") _ _ hpat
    (urlPat_head_cases _
      (by rw [startsWith_append_of_le _ (str "</loc>\n    <lastmod>") _ (by decide)]; decide)
      (by rw [startsWith_append_of_le _ (str "</loc>\n    <lastmod>") _ (by decide)]; decide)
      (by rw [startsWith_append_of_le _ (str "</loc>\n    <lastmod>") _ (by decide)]; decide)
      (by rw [startsWith_append_of_le _ (str "</loc>\n    <lastmod>") _ (by decide)]; decide))]
  rw [countPos_append (str "<url>") _ _ hpat
    (urlPat_clash _ _ hlm2 hlm3)]
  rw [countPos_append (str "<url>") _ _ hpat
    (urlPat_head_cases _
      (by rw [startsWith_append_of_le _ (str "</lastmod>\n  </url>") _ (by decide)]; decide)
      (by rw [startsWith_append_of_le _ (str "</lastmod>\n  </url>") _ (by decide)]; decide)
      (by rw [startsWith_append_of_le _ (str "</lastmod>\n  </url>") _ (by decide)]; decide)
      (by rw [startsWith_append_of_le _ (str "</lastmod>\n  </url>") _ (by decide)]; decide))]
  rw [countPos_url_zero _ hesc_lt, countPos_url_zero _ hlm1]
  rw [show countPos (str "<url>")
    (str "<?xml version=\"1.0\" encoding=\"UTF-8\"?>\n<urlset xmlns=\"http://www.sitemaps.org/schemas/sitemap/0.9\">\n") = 0 by decide]
  rw [show countPos (str "<url>") (str "  <url>\n    <loc>") = 1 by decide]
  rw [show countPos (str "<url>") (str "</loc>\n    <lastmod>") = 0 by decide]
  rw [show countPos (str "<url>")
    (str "</lastmod>\n  </url>" ++ str "\n</urlset>\n") = 0 by decide]

/-- C7 counterexample: unpublishing the only published page does NOT
delete `public/sitemap.xml` and never invokes the sitemap delete
operation — the route regenerates the file instead. -/
theorem claim7_counterexample :
    lookupStore (unpublishRoute (str "/srv/app/public") (str "index.html")
      c7PubStore false).pub sitemapName ≠ none ∧
    Service.sitemapDelete ∉ (unpublishRoute (str "/srv/app/public")
      (str "index.html") c7PubStore false).invoked := by
  decide

/-- C7 amended: unpublishing the only published page regenerates
`sitemap.xml` with zero `<url>` entries (the file continues to exist and
`deleteSitemap` is not invoked), and publishing a page that leaves the
public tree with exactly that one HTML page regenerates the sitemap with
exactly one `<url>` entry. -/
theorem claim7_sitemap_amended
    (publicDir draftsDir pagePath : Str) (pub : PubStore)
    (drafts : Str → Option Bytes) (draftAssets : Option (List (Str × Bytes)))
    (compress : Bytes → Bytes) (content : Bytes) (lm : Str) (r1 r2 : Str) :
    ((safePath publicDir pagePath = .ok r1) →
      (∃ f, lookupStore pub pagePath = some f) →
      listPublishedPages (eraseStore pub pagePath) = [] →
      ((unpublishRoute publicDir pagePath pub false).ok = true ∧
       lookupStore (unpublishRoute publicDir pagePath pub false).pub sitemapName =
         some ⟨strBytes (generateSitemapXml [] defaultBaseUrl), []⟩ ∧
       countPos (str "<url>") (generateSitemapXml [] defaultBaseUrl) = 0 ∧
       Service.sitemapDelete ∉
         (unpublishRoute publicDir pagePath pub false).invoked)) ∧
    ((pagePath ≠ []) →
      (safePath draftsDir pagePath = .ok r1) →
      (safePath publicDir pagePath = .ok r2) →
      (drafts pagePath = some content) →
      listPublishedPages (applyAssetWritesPub compress draftAssets
        (setStore pub pagePath ⟨content, lm⟩)) = [(pagePath, lm)] →
      '<' ∉ lm → '>' ∉ lm → 4 ≤ lm.length →
      ((publishOneRoute draftsDir publicDir pagePath drafts draftAssets pub lm
          compress false false).ok = true ∧
       lookupStore (publishOneRoute draftsDir publicDir pagePath drafts
           draftAssets pub lm compress false false).pub sitemapName =
         some ⟨strBytes (generateSitemapXml [(pagePath, lm)] defaultBaseUrl), []⟩ ∧
       countPos (str "<url>")
         (generateSitemapXml [(pagePath, lm)] defaultBaseUrl) = 1)) := by
  constructor
  · intro hg hex hlist
    obtain ⟨f, hf⟩ := hex
    unfold unpublishRoute
    rw [hg, hf]
    dsimp only
    refine ⟨rfl, ?_, by decide, by decide⟩
    unfold writeSitemap
    rw [hlist]
    exact lookupStore_set_self _ _ _
  · intro hne hg1 hg2 hd hlist hlm1 hlm2 hlm3
    unfold publishOneRoute
    rw [if_neg hne, hg1, hg2, hd]
    dsimp only
    simp only [Bool.false_eq_true, if_false]
    refine ⟨by trivial, ?_, countPos_url_sitemap_single pagePath lm hlm1 hlm2 hlm3⟩
    unfold writeSitemap
    rw [hlist]
    exact lookupStore_set_self _ _ _

theorem claim7_witness :
    ((unpublishRoute (str "/srv/app/public") (str "index.html")
        c7PubStore false).ok = true ∧
      lookupStore (unpublishRoute (str "/srv/app/public") (str "index.html")
          c7PubStore false).pub sitemapName =
        some ⟨strBytes (generateSitemapXml [] defaultBaseUrl), []⟩ ∧
      countPos (str "<url>") (generateSitemapXml [] defaultBaseUrl) = 0 ∧
      Service.sitemapDelete ∉ (unpublishRoute (str "/srv/app/public")
        (str "index.html") c7PubStore false).invoked) ∧
    ((publishOneRoute (str "/srv/app/drafts") (str "/srv/app/public")
        (str "index.html")
        (fun p => if p = str "index.html"
          then some (strBytes (str "<html></html>")) else none)
        none [] (str "2026-10-12") id false false).ok = true ∧
      lookupStore (publishOneRoute (str "/srv/app/drafts") (str "/srv/app/public")
          (str "index.html")
          (fun p => if p = str "index.html"
            then some (strBytes (str "<html></html>")) else none)
          none [] (str "2026-10-12") id false false).pub sitemapName =
        some ⟨strBytes (generateSitemapXml
          [(str "index.html", str "2026-10-12")] defaultBaseUrl), []⟩ ∧
      countPos (str "<url>") (generateSitemapXml
        [(str "index.html", str "2026-10-12")] defaultBaseUrl) = 1) :=
  ⟨(claim7_sitemap_amended (str "/srv/app/public") (str "/srv/app/drafts")
      (str "index.html") c7PubStore (fun _ => none) none id []
      (str "2026-10-12") (str "/srv/app/public/index.html")
      (str "/srv/app/public/index.html")).1
    (by decide) ⟨⟨strBytes (str "<html></html>"), str "2026-10-12"⟩, by decide⟩
    (by decide),
   (claim7_sitemap_amended (str "/srv/app/public") (str "/srv/app/drafts")
      (str "index.html") []
      (fun p => if p = str "index.html"
        then some (strBytes (str "<html></html>")) else none)
      none id (strBytes (str "<html></html>")) (str "2026-10-12")
      (str "/srv/app/drafts/index.html") (str "/srv/app/public/index.html")).2
    (by decide) (by decide) (by decide) (by decide) (by decide)
    (by decide) (by decide) (by decide)⟩

/-- C8 counterexample: unpublishing a page does NOT trigger the asset
publisher — the route invokes only the sitemap generator — contradicting
the claim that every unpublish triggers both side effects. -/
theorem claim8_counterexample :
    (unpublishRoute (str "/srv/app/public") (str "about.html")
      c8PubStore false).invoked = [Service.sitemapGen] ∧
    Service.assets ∉ (unpublishRoute (str "/srv/app/public") (str "about.html")
      c8PubStore false).invoked := by
  decide

/-- C8 amended: publishing a single page triggers both the asset
publisher and the sitemap generator, unpublishing triggers only the
sitemap generator; in both routes a side-effect failure leaves the
response a success and the page copy (resp. deletion) intact. -/
theorem claim8_side_effects_amended
    (draftsDir publicDir pagePath : Str) (drafts : Str → Option Bytes)
    (draftAssets : Option (List (Str × Bytes))) (pub : PubStore) (lm : Str)
    (compress : Bytes → Bytes) (assetsFails sitemapFails : Bool)
    (content : Bytes) (f : PubFile) (r1 r2 : Str)
    (hp1 : pagePath ≠ sitemapName)
    (hp2 : startsWith (str "assets/") pagePath = false) :
    ((pagePath ≠ []) → safePath draftsDir pagePath = .ok r1 →
      safePath publicDir pagePath = .ok r2 → drafts pagePath = some content →
      ((publishOneRoute draftsDir publicDir pagePath drafts draftAssets pub lm
          compress assetsFails sitemapFails).status = 200 ∧
       (publishOneRoute draftsDir publicDir pagePath drafts draftAssets pub lm
          compress assetsFails sitemapFails).ok = true ∧
       (publishOneRoute draftsDir publicDir pagePath drafts draftAssets pub lm
          compress assetsFails sitemapFails).invoked =
         [Service.assets, Service.sitemapGen] ∧
       lookupStore (publishOneRoute draftsDir publicDir pagePath drafts
          draftAssets pub lm compress assetsFails sitemapFails).pub pagePath =
         some ⟨content, lm⟩)) ∧
    (safePath publicDir pagePath = .ok r2 → lookupStore pub pagePath = some f →
      ((unpublishRoute publicDir pagePath pub sitemapFails).status = 200 ∧
       (unpublishRoute publicDir pagePath pub sitemapFails).ok = true ∧
       (unpublishRoute publicDir pagePath pub sitemapFails).invoked =
         [Service.sitemapGen] ∧
       Service.assets ∉ (unpublishRoute publicDir pagePath pub sitemapFails).invoked ∧
       lookupStore (unpublishRoute publicDir pagePath pub sitemapFails).pub
         pagePath = none)) := by
  constructor
  · intro hne hg1 hg2 hd
    unfold publishOneRoute
    rw [if_neg hne, hg1, hg2, hd]
    dsimp only
    refine ⟨rfl, rfl, rfl, ?_⟩
    have hpub2 : lookupStore
        (if assetsFails then setStore pub pagePath ⟨content, lm⟩
          else applyAssetWritesPub compress draftAssets
            (setStore pub pagePath ⟨content, lm⟩)) pagePath =
        some ⟨content, lm⟩ := by
      cases assetsFails with
      | true =>
        simp only [if_true]
        exact lookupStore_set_self pub pagePath ⟨content, lm⟩
      | false =>
        simp only [Bool.false_eq_true, if_false]
        rw [lookup_assetWrites_ne compress draftAssets _ pagePath hp2]
        exact lookupStore_set_self pub pagePath ⟨content, lm⟩
    cases sitemapFails with
    | true => simpa using hpub2
    | false =>
      simp only [Bool.false_eq_true, if_false]
      unfold writeSitemap
      rw [lookupStore_set_ne _ _ _ _ hp1]
      exact hpub2
  · intro hg hf
    unfold unpublishRoute
    rw [hg, hf]
    dsimp only
    refine ⟨rfl, rfl, rfl, by decide, ?_⟩
    cases sitemapFails with
    | true =>
      simp only [if_true]
      exact lookupStore_erase_self pub pagePath
    | false =>
      simp only [Bool.false_eq_true, if_false]
      unfold writeSitemap
      rw [lookupStore_set_ne _ _ _ _ hp1]
      exact lookupStore_erase_self pub pagePath

theorem claim8_witness :
    ((publishOneRoute (str "/srv/app/drafts") (str "/srv/app/public")
        (str "about.html")
        (fun p => if p = str "about.html"
          then some (strBytes (str "<html></html>")) else none)
        none c8PubStore (str "2026-10-12") id true true).status = 200 ∧
      (publishOneRoute (str "/srv/app/drafts") (str "/srv/app/public")
        (str "about.html")
        (fun p => if p = str "about.html"
          then some (strBytes (str "<html></html>")) else none)
        none c8PubStore (str "2026-10-12") id true true).ok = true ∧
      (publishOneRoute (str "/srv/app/drafts") (str "/srv/app/public")
        (str "about.html")
        (fun p => if p = str "about.html"
          then some (strBytes (str "<html></html>")) else none)
        none c8PubStore (str "2026-10-12") id true true).invoked =
        [Service.assets, Service.sitemapGen] ∧
      lookupStore (publishOneRoute (str "/srv/app/drafts") (str "/srv/app/public")
        (str "about.html")
        (fun p => if p = str "about.html"
          then some (strBytes (str "<html></html>")) else none)
        none c8PubStore (str "2026-10-12") id true true).pub (str "about.html") =
        some ⟨strBytes (str "<html></html>"), str "2026-10-12"⟩) ∧
    ((unpublishRoute (str "/srv/app/public") (str "about.html")
        c8PubStore true).status = 200 ∧
      (unpublishRoute (str "/srv/app/public") (str "about.html")
        c8PubStore true).ok = true ∧
      (unpublishRoute (str "/srv/app/public") (str "about.html")
        c8PubStore true).invoked = [Service.sitemapGen] ∧
      Service.assets ∉ (unpublishRoute (str "/srv/app/public") (str "about.html")
        c8PubStore true).invoked ∧
      lookupStore (unpublishRoute (str "/srv/app/public") (str "about.html")
        c8PubStore true).pub (str "about.html") = none) :=
  ⟨(claim8_side_effects_amended (str "/srv/app/drafts") (str "/srv/app/public")
      (str "about.html")
      (fun p => if p = str "about.html"
        then some (strBytes (str "<html></html>")) else none)
      none c8PubStore (str "2026-10-12") id true true
      (strBytes (str "<html></html>"))
      ⟨strBytes (str "<html></html>"), str "2026-10-11"⟩
      (str "/srv/app/drafts/about.html") (str "/srv/app/public/about.html")
      (by decide) (by decide)).1
    (by decide) (by decide) (by decide) (by decide),
   (claim8_side_effects_amended (str "/srv/app/drafts") (str "/srv/app/public")
      (str "about.html")
      (fun p => if p = str "about.html"
        then some (strBytes (str "<html></html>")) else none)
      none c8PubStore (str "2026-10-12") id true true
      (strBytes (str "<html></html>"))
      ⟨strBytes (str "<html></html>"), str "2026-10-11"⟩
      (str "/srv/app/drafts/about.html") (str "/srv/app/public/about.html")
      (by decide) (by decide)).2
    (by decide) (by decide)⟩
